import Mathlib

/-!
Verification of the SimpleJobBot repository (a FastAPI app that calls a
local LLM and writes tailored job-application packages to disk).

The repository has two coexisting implementation variants:
  * `src/main.py`              (the tagged-output parser variant), and
  * `src/app/...`              (the simpler per-artifact variant).

All text is modelled as `List Char` (one entry per Unicode code point,
matching Python `str` indexing/length).  Python regular expressions used
by the source are small and anchored enough that each `re.sub`/`re.search`
call is translated into an explicit deterministic scanner with identical
semantics.  Numeric fit scores are modelled as exact rationals `ℚ`
(`float(...)` in the source is only ever applied to short decimal
numerals, and no claim depends on binary-float rounding).  Filesystem
effects are modelled by explicit state passing over a small `FS` record.
-/

namespace SimpleJobBot

abbrev Str := List Char

/-- Whitespace as recognised by Python `str.strip()` / `str.isspace()` and
by the regex class `\s` (the code points relevant to this code base). -/
def isPySpace (c : Char) : Bool :=
  c == ' ' || c == '\t' || c == '\n' || c == '\r' || c == '\x0b' || c == '\x0c'
  || c == '\x1c' || c == '\x1d' || c == '\x1e' || c == '\x1f' || c == '\x85'
  || c == '\xa0' || c == ' ' || c == ' ' || c == '　'

/-- Line boundaries recognised by Python `str.splitlines()` (besides the
two-character boundary `\r\n`, which `splitlines` handles directly). -/
def isLineBreak (c : Char) : Bool :=
  c == '\n' || c == '\r' || c == '\x0b' || c == '\x0c'
  || c == '\x1c' || c == '\x1d' || c == '\x1e' || c == '\x85'
  || c == ' ' || c == ' '

/-- Worker for `startsWith`, recursing on the pattern (first argument)
so that an empty pattern reduces without inspecting the text. -/
def startsWithAux : Str → Str → Bool
  | [], _ => true
  | _ :: _, [] => false
  | d :: p, c :: t => c == d && startsWithAux p t

/-- `startsWith t p` holds when `p` is a leading segment of `t`
(Python `t.startswith(p)`). -/
def startsWith (t p : Str) : Bool := startsWithAux p t

/-- Index of the first occurrence of `p` inside `t`, scanning left to
right (Python `t.find(p)`, with `none` for `-1`). -/
def firstOcc : Str → Str → Option Nat
  | [], p => if startsWith [] p then some 0 else none
  | c :: t', p =>
    if startsWith (c :: t') p then some 0 else (firstOcc t' p).map (· + 1)

/-- Python `p in t` substring test. -/
def containsStr (t p : Str) : Bool :=
  (firstOcc t p).isSome

/-- Python `s.strip()`: drop leading and trailing whitespace. -/
def pyStrip (s : Str) : Str :=
  ((s.dropWhile isPySpace).reverse.dropWhile isPySpace).reverse

/-- Python `s.splitlines()`: main worker.  `acc` is the current line,
collected in reverse. -/
def splitlinesGo : Str → Str → List Str
  | [], acc => [acc.reverse]
  | '\r' :: '\n' :: rest, acc =>
    acc.reverse :: (if rest.isEmpty then [] else splitlinesGo rest [])
  | c :: rest, acc =>
    if isLineBreak c then
      acc.reverse :: (if rest.isEmpty then [] else splitlinesGo rest [])
    else
      splitlinesGo rest (c :: acc)

/-- Python `s.splitlines()` (no keepends). -/
def splitlines (s : Str) : List Str :=
  if s.isEmpty then [] else splitlinesGo s []

/-- Worker for `replaceAll`, structurally recursive on a fuel argument
that starts at the text length.  When the pattern is non-empty each step
removes at least one character, so the fuel never runs out (the `0, s`
row is unreachable dead code needed only for totality). -/
def replaceGo : Nat → Str → Str → Str → Str
  | _, [], _, _ => []
  | 0, s, _, _ => s
  | fuel + 1, c :: s', pat, rep =>
    if pat ≠ [] ∧ startsWith (c :: s') pat then
      rep ++ replaceGo fuel ((c :: s').drop pat.length) pat rep
    else
      c :: replaceGo fuel s' pat rep

/-- Python `s.replace(pat, rep)` for a non-empty `pat`: replace all
non-overlapping occurrences, left to right. -/
def replaceAll (s pat rep : Str) : Str :=
  replaceGo s.length s pat rep

/-- Convert a Lean string literal to the `List Char` representation. -/
def chars (s : String) : Str := s.data

/-- One attempted match of the body of `\[([^\]]+)\]\(([^)]+)\)` right
after an opening `[`: the label is the (non-empty) run up to the first
`]`, which must be followed by `(`, a non-empty run up to the first `)`,
and `)`.  Returns the label and the rest of the text after the match.
(The two character classes exclude their own closing delimiter, so the
greedy Python match is exactly this first-closing-bracket scan.) -/
def tryLink (rest : Str) : Option (Str × Nat) :=
  let label := rest.takeWhile (· ≠ ']')
  if label.isEmpty then none
  else
    match rest.drop label.length with
    | ']' :: '(' :: r2 =>
      let url := r2.takeWhile (· ≠ ')')
      if url.isEmpty then none
      else
        match r2.drop url.length with
        | ')' :: _ => some (label, label.length + 2 + url.length + 1)
        | _ => none
    | _ => none

/-- Worker for `linkSub`, structurally recursive on a fuel argument that
starts at the text length (each step consumes at least one character, so
the fuel never runs out). -/
def linkGo : Nat → Str → Str
  | _, [] => []
  | 0, s => s
  | fuel + 1, '[' :: rest =>
    match tryLink rest with
    | some (label, k) => label ++ linkGo fuel (rest.drop k)
    | none => '[' :: linkGo fuel rest
  | fuel + 1, c :: rest => c :: linkGo fuel rest

/-- `re.sub(r"\[([^\]]+)\]\(([^)]+)\)", r"\1", s)`: rewrite every
markdown link `[label](url)` to `label`, scanning left to right.  On a
successful match `tryLink` reports how many characters of `rest` the
match consumed (the characters after the label up to and including the
closing parenthesis). -/
def linkSub (s : Str) : Str := linkGo s.length s

/-- Worker for `collapseNl`, structurally recursive on a fuel argument
that starts at the text length (each step consumes at least one
character, so the fuel never runs out). -/
def collapseGo : Nat → Str → Str
  | _, [] => []
  | 0, s => s
  | fuel + 1, '\n' :: '\n' :: '\n' :: rest =>
    '\n' :: '\n' :: collapseGo fuel (rest.dropWhile (· == '\n'))
  | fuel + 1, c :: rest => c :: collapseGo fuel rest

/-- `re.sub(r"\n{3,}", "\n\n", s)`: collapse each run of three or more
newlines down to exactly two. -/
def collapseNl (s : Str) : Str := collapseGo s.length s

/-- Python `str.lower()` on the code points this code base manipulates
(ASCII case mapping). -/
def pyLower (s : Str) : Str := s.map Char.toLower

/-- The per-line predicate of `clean_model_text`: drop a line whose
stripped content starts with `...`, and drop a line containing both
`continued` (case-insensitively) and `...`. -/
def isPlaceholderLine (line : Str) : Bool :=
  let stripped := pyStrip line
  startsWith stripped (chars "...")
  || (containsStr (pyLower stripped) (chars "continued") && containsStr stripped (chars "..."))

/-- `clean_model_text` from `src/main.py` (lines 100-135): normalize raw
model output.  The `if not text` guard returns `""` for the empty string,
which coincides with running the pipeline on `[]`, and `str(text)` is the
identity on strings; both are therefore dropped from the model. -/
def clean_model_text (text : Str) : Str :=
  let s := text
  let s := replaceAll s (chars "\\n") (chars "\n")
  let s := replaceAll s (chars "\\r") (chars "\r")
  let s := replaceAll s (chars "\\t") (chars "\t")
  let s := replaceAll s (chars "\\u0022") (chars "\"")
  let s := replaceAll s (chars "```") []
  let s := linkSub s
  let s := List.intercalate (chars "\n")
    ((splitlines s).filter (fun line => ! isPlaceholderLine line))
  let s := collapseNl s
  pyStrip s

/-- `extract_block` from `src/main.py` (lines 170-179): text between
`start_tag` and `end_tag` (exclusive), stripped; `""` when the start tag
is absent; the remainder of the text when the end tag is absent. -/
def extract_block (text start_tag end_tag : Str) : Str :=
  match firstOcc text start_tag with
  | none => []
  | some i =>
    let rest := text.drop (i + start_tag.length)
    match firstOcc rest end_tag with
    | none => pyStrip rest
    | some j => pyStrip (rest.take j)

/-- The numeral part of the fit-score pattern at the head of `r`: a
non-empty greedy digit run, optionally followed by `.` and another
non-empty greedy digit run.  Returns the integer and fractional digit
runs of the captured group (the fractional run is `[]` when the
optional part does not match). -/
def fitNum (r : Str) : Option (Str × Str) :=
  if (r.takeWhile Char.isDigit).isEmpty then none
  else
    match r.drop (r.takeWhile Char.isDigit).length with
    | '.' :: r2 =>
      if (r2.takeWhile Char.isDigit).isEmpty then some (r.takeWhile Char.isDigit, [])
      else some (r.takeWhile Char.isDigit, r2.takeWhile Char.isDigit)
    | _ => some (r.takeWhile Char.isDigit, [])

/-- One attempted match of `FIT_SCORE:\s*([0-9]+(?:\.[0-9]+)?)` at the
head of `t`: the tag, then a greedy whitespace run, then the numeral.
Since the character classes `\s`, `[0-9]` and the literals are mutually
exclusive, the greedy Python match never backtracks and is exactly this
scan. -/
def fitMatchAt (t : Str) : Option (Str × Str) :=
  if startsWith t (chars "FIT_SCORE:") then
    fitNum ((t.drop 10).dropWhile isPySpace)
  else none

/-- `re.search(r"FIT_SCORE:\s*([0-9]+(?:\.[0-9]+)?)", text)`: leftmost
position where the pattern matches (every match starts with the literal
tag, so scanning positions left to right is exact). -/
def searchFitScore : Str → Option (Str × Str)
  | [] => fitMatchAt []
  | c :: t' =>
    match fitMatchAt (c :: t') with
    | some g => some g
    | none => searchFitScore t'

/-- Value of a digit character. -/
def digitVal (c : Char) : Nat := c.toNat - 48

/-- Numeric value of a digit run. -/
def digitsToNat (ds : Str) : Nat :=
  ds.foldl (fun acc c => 10 * acc + digitVal c) 0

/-- `float(m.group(1))` on the matched numeral, as an exact rational. -/
def numeralToRat (ds fs : Str) : ℚ :=
  if fs.isEmpty then (digitsToNat ds : ℚ)
  else (digitsToNat ds : ℚ) + (digitsToNat fs : ℚ) / (10 : ℚ) ^ fs.length

/-- `re.sub(r"^[0-9]+\s*[\).\-\:]\s*", "", line)`: remove a leading
enumerator (digits, optional whitespace, one of `) . - :`, optional
whitespace).  The digit run and whitespace run are taken greedily; since
the enumerator punctuation class contains neither digits nor whitespace,
the Python match never backtracks and this scan is exact. -/
def stripEnum (line : Str) : Str :=
  let ds := line.takeWhile Char.isDigit
  if ds.isEmpty then line
  else
    let r1 := (line.drop ds.length).dropWhile isPySpace
    match r1 with
    | p :: rest =>
      if p == ')' || p == '.' || p == '-' || p == ':' then
        rest.dropWhile isPySpace
      else line
    | [] => line

/-- The short-answers loop of `parse_model_output` (lines 234-244):
strip each line of the block, skip empty lines, remove a leading
enumerator, then truncate to 3 entries or right-pad with empty strings
up to 3 entries. -/
def shortAnswersFromBlock (sa_block : Str) : List Str :=
  let answers := (splitlines sa_block).filterMap (fun line =>
    let l := pyStrip line
    if l.isEmpty then none else some (stripEnum l))
  let answers := if 3 < answers.length then answers.take 3 else answers
  answers ++ List.replicate (3 - answers.length) []

/-- Result record of `parse_model_output` (the tuple it returns). -/
structure ParsedPackage where
  fit_score : ℚ
  reasoning : Str
  cover_letter : Str
  resume : Str
  short_answers : List Str
deriving DecidableEq

instance {α β : Type} [DecidableEq α] [DecidableEq β] : DecidableEq (Except α β) := fun x y =>
  match x, y with
  | .error a, .error b =>
    if h : a = b then .isTrue (by rw [h]) else .isFalse (by simp [h])
  | .ok a, .ok b =>
    if h : a = b then .isTrue (by rw [h]) else .isFalse (by simp [h])
  | .error _, .ok _ => .isFalse (by simp)
  | .ok _, .error _ => .isFalse (by simp)

/-- The error message raised when no `FIT_SCORE` pattern is found
(`HTTPException` detail, line 204-207): carries the first 300 characters
of the raw text as a snippet. -/
def fitScoreErrMsg (text : Str) : Str :=
  chars "Could not find FIT_SCORE in model output. Snippet: " ++ text.take 300

/-- `parse_model_output` from `src/main.py` (lines 182-246).  The raised
`HTTPException` is modelled as `Except.error` carrying the detail
message (the function's local alias `text = raw` is inlined).  For each
section the tag-plus-newline variant is tried first and the bare tag is
used when the first extraction came back empty. -/
def parse_model_output (text : Str) : Except Str ParsedPackage :=
  match searchFitScore text with
  | none => .error (fitScoreErrMsg text)
  | some (ds, fs) =>
    let fit_score := numeralToRat ds fs
    let reasoning0 := extract_block text (chars "REASONING:\n") (chars "COVER_LETTER:")
    let reasoning1 := if reasoning0.isEmpty then
        extract_block text (chars "REASONING:") (chars "COVER_LETTER:")
      else reasoning0
    let reasoning := clean_model_text reasoning1
    let cover0 := extract_block text (chars "COVER_LETTER:\n") (chars "END_COVER_LETTER")
    let cover1 := if cover0.isEmpty then
        extract_block text (chars "COVER_LETTER:") (chars "END_COVER_LETTER")
      else cover0
    let cover_letter := clean_model_text cover1
    let resume0 := extract_block text (chars "RESUME:\n") (chars "END_RESUME")
    let resume1 := if resume0.isEmpty then
        extract_block text (chars "RESUME:") (chars "END_RESUME")
      else resume0
    let resume := clean_model_text resume1
    let sa0 := extract_block text (chars "SHORT_ANSWERS:\n") (chars "END_SHORT_ANSWERS")
    let sa1 := if sa0.isEmpty then
        extract_block text (chars "SHORT_ANSWERS:") (chars "END_SHORT_ANSWERS")
      else sa0
    let sa_block := clean_model_text sa1
    .ok ⟨fit_score, reasoning, cover_letter, resume, shortAnswersFromBlock sa_block⟩

/-- `map_score_to_label` from `src/main.py` (lines 90-97). -/
def map_score_to_label (score : ℚ) : Str :=
  if 85 ≤ score then chars "Strong fit"
  else if 70 ≤ score then chars "Good fit"
  else if 55 ≤ score then chars "Moderate fit"
  else chars "Low fit"

/-- `label_fit` from `src/app/utils.py` (lines 23-28). -/
def label_fit (score : ℚ) : Str :=
  if 85 ≤ score then chars "Strong fit"
  else if 65 ≤ score then chars "Good fit"
  else chars "Weak fit"

/-- `sanitize_part` from `src/main.py` (lines 71-76): replace each run of
characters outside `[A-Za-z0-9]` by one underscore, strip leading and
trailing underscores, fall back to `"job"` when empty. -/
def isAlnumAscii (c : Char) : Bool :=
  ('A' ≤ c && c ≤ 'Z') || ('a' ≤ c && c ≤ 'z') || ('0' ≤ c && c ≤ '9')

/-- Worker for `nonAlnumRunsToUnderscore`: `inRun` records whether the
previous character was part of a non-alphanumeric run whose underscore
has already been emitted. -/
def nonAlnumGo : Bool → Str → Str
  | _, [] => []
  | inRun, c :: rest =>
    if isAlnumAscii c then c :: nonAlnumGo false rest
    else if inRun then nonAlnumGo true rest
    else '_' :: nonAlnumGo true rest

/-- `re.sub(r"[^A-Za-z0-9]+", "_", text)`: each maximal run of
non-alphanumeric characters becomes a single underscore. -/
def nonAlnumRunsToUnderscore (s : Str) : Str := nonAlnumGo false s

/-- Python `s.strip("_")`. -/
def stripUnderscores (s : Str) : Str :=
  ((s.dropWhile (· == '_')).reverse.dropWhile (· == '_')).reverse

def sanitize_part_main (text : Str) : Str :=
  if text.isEmpty then chars "job"
  else
    let cleaned := stripUnderscores (nonAlnumRunsToUnderscore text)
    if cleaned.isEmpty then chars "job" else cleaned

/-- Characters kept by the app-variant sanitizer (`[a-z0-9_]`). -/
def isLowerAlnumU (c : Char) : Bool :=
  ('a' ≤ c && c ≤ 'z') || ('0' ≤ c && c ≤ '9') || c == '_'

/-- Worker for `wsRunsToUnderscore`: `inRun` records whether the
previous character was part of a whitespace run whose underscore has
already been emitted. -/
def wsGo : Bool → Str → Str
  | _, [] => []
  | inRun, c :: rest =>
    if isPySpace c then
      if inRun then wsGo true rest else '_' :: wsGo true rest
    else c :: wsGo false rest

/-- `re.sub(r"\s+", "_", s)`: each maximal whitespace run becomes a
single underscore. -/
def wsRunsToUnderscore (s : Str) : Str := wsGo false s

/-- `sanitize_part` from `src/app/utils.py` (lines 5-13): strip, fall
back when blank, lower-case, whitespace runs to underscores, drop
everything outside `[a-z0-9_]`, fall back when empty. -/
def sanitize_part (text : Str) (fallback : Str) : Str :=
  let cleaned := pyStrip text
  if cleaned.isEmpty then fallback
  else
    let cleaned := wsRunsToUnderscore (pyLower cleaned)
    let cleaned := cleaned.filter isLowerAlnumU
    if cleaned.isEmpty then fallback else cleaned

/-- `SeniorityHint` from `src/app/models.py` (lines 6-12). -/
inductive SeniorityHint where
  | junior | intermediate | senior | lead | director | executive
deriving DecidableEq

/-- The `.value` string of a `SeniorityHint` member (names and values
coincide in the source enum). -/
def SeniorityHint.val : SeniorityHint → Str
  | .junior => chars "junior"
  | .intermediate => chars "intermediate"
  | .senior => chars "senior"
  | .lead => chars "lead"
  | .director => chars "director"
  | .executive => chars "executive"

/-- `JobInput` from `src/app/models.py` (lines 15-21): the enum-typed
variant. -/
structure JobInput where
  resume_text : Str
  company : Str
  title : Str
  location : Option Str
  job_description : Str
  seniority_hint : Option SeniorityHint
deriving DecidableEq

/-- `estimate_fit_score` from `src/app/services/generation.py`
(lines 135-141): base 70, +5 for a senior-level hint, +5 for a job
description longer than 1500 characters, clamped to [0, 100].  The
Python set-membership test compares the enum member's string value, and
members `senior`, `lead`, `director`, `executive` are exactly the ones
whose value lies in the literal set. -/
def estimate_fit_score (job : JobInput) : ℚ :=
  let base : ℚ := 70
  let base := match job.seniority_hint with
    | some h =>
      if h = .senior ∨ h = .lead ∨ h = .director ∨ h = .executive then base + 5
      else base
    | none => base
  let base := if 1500 < job.job_description.length then base + 5 else base
  max 0 (min 100 base)

/-- Worker for `splitOn`, structurally recursive on a fuel argument that
starts above the text length (each recursion consumes at least one
character when the separator is non-empty, so the fuel never runs
out). -/
def splitGo : Nat → Str → Str → List Str
  | 0, s, _ => [s]
  | fuel + 1, s, sep =>
    match firstOcc s sep with
    | none => [s]
    | some i =>
      if sep.length = 0 then [s]
      else s.take i :: splitGo fuel (s.drop (i + sep.length)) sep

/-- Python `raw.split(sep)` for non-empty `sep` (used with `"\n\n"` in
`generate_short_answers`): split at every non-overlapping occurrence of
the separator, scanning left to right; `"".split(sep) == [""]`. -/
def splitOn (sep : Str) (s : Str) : List Str :=
  splitGo (s.length + 1) s sep

/-- The post-processing of `generate_short_answers` from
`src/app/services/generation.py` (lines 124-132): split the raw model
text on blank lines, strip and drop empty chunks, truncate to 3, and
when fewer than 3 chunks were found pad by repeating the last chunk
(the `while` loop appends `parts[-1]` until 3 entries exist; on 1 or 2
chunks that loop yields the unfoldings below), or return three empty
strings when no chunk was found. -/
def generate_short_answers_post (raw : Str) : List Str :=
  let parts := (splitOn (chars "\n\n") raw).filterMap (fun p =>
    let q := pyStrip p
    if q.isEmpty then none else some q)
  if 3 ≤ parts.length then parts.take 3
  else
    match parts with
    | [] => [[], [], []]
    | [a] => [a, a, a]
    | [a, b] => [a, b, b]
    | l => l.take 3

/-- `build_short_answers_text` from `src/app/utils.py` (lines 16-20):
`"Answer N:\n<text>\n\n"` blocks, `N = 1..3`. -/
def build_short_answers_text (short_answers : List Str) : Str :=
  short_answers.enum.foldl
    (fun acc p =>
      acc ++ chars "Answer " ++ chars (toString (p.1 + 1)) ++ chars ":\n" ++ p.2 ++ chars "\n\n")
    []

/-- A path in the modelled filesystem, as a list of components. -/
abbrev FPath := List Str

/-- The modelled filesystem state: a set of existing directories and a
list of files with their contents. -/
structure FS where
  dirs : List FPath
  files : List (FPath × Str)
deriving DecidableEq

/-- `Path.mkdir(exist_ok=True)` for one directory. -/
def FS.mkdir (fs : FS) (p : FPath) : FS :=
  if p ∈ fs.dirs then fs else { fs with dirs := p :: fs.dirs }

/-- `Path.write_text`: create or overwrite one file. -/
def FS.writeText (fs : FS) (p : FPath) (content : Str) : FS :=
  { fs with files := (p, content) :: fs.files.filter (fun q => q.1 ≠ p) }

/-- `OUTPUT_ROOT` of the app variant (`Path("job-packages")`). -/
def outRootApp : Str := chars "job-packages"

/-- `OUTPUT_ROOT` of the `src/main.py` variant (`Path("/app/output")`),
as the component list of the absolute path. -/
def outRootMain : FPath := [chars "app", chars "output"]

/-- The metadata record JSON written by both variants; `json.dumps` is
modelled abstractly as this tagged concatenation (no claim depends on
the concrete JSON syntax, only on the file's existence and identity). -/
def metaEncode (fields : List (Str × Str)) : Str :=
  (fields.map (fun f => f.1 ++ chars "=" ++ f.2 ++ chars ";")).flatten

/-- Decimal rendering of a rational score for the metadata model. -/
def ratRepr (q : ℚ) : Str := chars (toString q.num) ++ chars "/" ++ chars (toString q.den)

/-- The folder name derived by the app variant:
`<sanitized company>_<sanitized title>_<timestamp>`. -/
def folder_name_app (job : JobInput) (timestamp : Str) : Str :=
  sanitize_part job.company (chars "company") ++ chars "_"
  ++ sanitize_part job.title (chars "title") ++ chars "_" ++ timestamp

/-- `generate_full_package` from `src/app/services/generation.py`
(lines 144-187), with the nondeterministic inputs passed explicitly:
`timestamp` stands for `datetime.now().strftime("%Y%m%d_%H%M%S")` and
`resume_raw`/`cover_raw`/`answers_raw` are the three Ollama responses
(`generate_resume`/`generate_cover_letter` return them unchanged, and
`generate_short_answers` post-processes the third).  Returns the new
filesystem and the result dictionary fields. -/
def generate_full_package (fs : FS) (job : JobInput) (timestamp : Str)
    (resume_raw cover_raw answers_raw : Str) :
    FS × Str × ℚ × Str :=
  let fs := fs.mkdir [outRootApp]
  let folder_name := folder_name_app job timestamp
  let job_dir : FPath := [outRootApp, folder_name]
  let fs := fs.mkdir job_dir
  let resume_text := resume_raw
  let cover_text := cover_raw
  let short_answers_list := generate_short_answers_post answers_raw
  let answers_text := build_short_answers_text short_answers_list
  let fs := fs.writeText (job_dir ++ [chars "resume_full.txt"]) resume_text
  let fs := fs.writeText (job_dir ++ [chars "cover_letter.txt"]) cover_text
  let fs := fs.writeText (job_dir ++ [chars "short_answers.txt"]) answers_text
  let fit_score := estimate_fit_score job
  let fit_label := label_fit fit_score
  let meta := metaEncode
    [ (chars "company", job.company)
    , (chars "title", job.title)
    , (chars "location", job.location.getD [])
    , (chars "seniority_hint", (job.seniority_hint.map SeniorityHint.val).getD [])
    , (chars "fit_score", ratRepr fit_score)
    , (chars "fit_label", fit_label)
    , (chars "folder_name", folder_name)
    , (chars "created_at", timestamp) ]
  let fs := fs.writeText (job_dir ++ [chars "meta.json"]) meta
  (fs, folder_name, fit_score, fit_label)

/-- `JobInput` from `src/main.py` (lines 28-34): the free-string
variant. -/
structure MainJobInput where
  resume_text : Str
  company : Str
  title : Str
  location : Option Str
  job_description : Str
  seniority_hint : Option Str
deriving DecidableEq

/-- The folder name derived by the `src/main.py` variant:
`<timestamp>_<sanitized company>_<sanitized title>`. -/
def folder_name_main (company title stamp : Str) : Str :=
  stamp ++ chars "_" ++ sanitize_part_main company
  ++ chars "_" ++ sanitize_part_main title

/-- The filesystem-effect part of `process_job` from `src/main.py`
(lines 249-377), given the raw Ollama response `raw` and the formatted
current time `stamp`.  Parsing happens before any folder is created, so
a parse failure leaves the filesystem untouched.  On success the folder
`<stamp>_<sanitized company>_<sanitized title>` is created (with
`parents=True`, so the output root is created first) and the four
artifact files are written. -/
def process_job_fs (fs : FS) (job : MainJobInput) (stamp raw : Str) :
    Except Str (FS × ParsedPackage × Str × Str) :=
  match parse_model_output raw with
  | .error e => .error e
  | .ok p =>
    let fit_label := map_score_to_label p.fit_score
    let name := folder_name_main job.company job.title stamp
    let job_dir : FPath := outRootMain ++ [name]
    let fs := (fs.mkdir outRootMain).mkdir job_dir
    let fs := fs.writeText (job_dir ++ [chars "cover_letter.txt"]) p.cover_letter
    let fs := fs.writeText (job_dir ++ [chars "resume_full.txt"]) p.resume
    let answers_text := build_short_answers_text p.short_answers
    let fs := fs.writeText (job_dir ++ [chars "short_answers.txt"]) answers_text
    let meta := metaEncode
      [ (chars "company", job.company)
      , (chars "title", job.title)
      , (chars "location", job.location.getD [])
      , (chars "seniority_hint", job.seniority_hint.getD [])
      , (chars "fit_score", ratRepr p.fit_score)
      , (chars "fit_label", fit_label)
      , (chars "container_folder", name) ]
    let fs := fs.writeText (job_dir ++ [chars "meta.json"]) meta
    .ok (fs, p, name, fit_label)

/-- A parsed `meta.json` as far as `get_recent_jobs` reads it: each
field is optional because `meta.get(key, "")` supplies a default. -/
structure MetaRecord where
  host_folder : Option Str
  company : Option Str
  title : Option Str
  location : Option Str
  fit_score : Option Str
  fit_label : Option Str
deriving DecidableEq

/-- One entry of the output root as `get_recent_jobs` observes it:
its name, whether it is a directory, and the state of its `meta.json`
(`none`: no such file; `some none`: present but unreadable or not valid
JSON; `some (some m)`: parses to `m`). -/
structure DirEntry where
  name : Str
  isDir : Bool
  metaJson : Option (Option MetaRecord)
deriving DecidableEq

/-- The summary row appended for one folder. -/
structure JobSummary where
  folder : Str
  host_folder : Str
  company : Str
  title : Str
  location : Str
  fit_score : Str
  fit_label : Str
deriving DecidableEq

/-- The body of the `get_recent_jobs` loop for one entry: `none` when
the entry is skipped (not a directory, no metadata file, or unparseable
metadata), otherwise the summary row. -/
def entrySummary (e : DirEntry) : Option JobSummary :=
  if e.isDir then
    match e.metaJson with
    | some (some m) =>
      some
        { folder := e.name
        , host_folder := m.host_folder.getD []
        , company := m.company.getD []
        , title := m.title.getD []
        , location := m.location.getD []
        , fit_score := m.fit_score.getD []
        , fit_label := m.fit_label.getD [] }
    | _ => none
  else none

/-- Lexicographic strict order on names by code point, which is how
Python compares the path strings produced by `sorted(...)`. -/
def lexLt : Str → Str → Bool
  | [], [] => false
  | [], _ :: _ => true
  | _ :: _, [] => false
  | a :: s, b :: t => if a == b then lexLt s t else a < b

/-- Insert into a list sorted in descending name order (stable). -/
def insertDesc (e : DirEntry) : List DirEntry → List DirEntry
  | [] => [e]
  | x :: xs => if lexLt e.name x.name then x :: insertDesc e xs else e :: x :: xs

/-- `sorted(OUTPUT_ROOT.iterdir(), reverse=True)`: the entries in
descending name order. -/
def sortDesc : List DirEntry → List DirEntry
  | [] => []
  | x :: xs => insertDesc x (sortDesc xs)

/-- The collection loop of `get_recent_jobs` (lines 143-166): `acc` is
`jobs` so far; after appending a summary the loop stops as soon as
`len(jobs) >= limit`. -/
def recentLoop (limit : Nat) (acc : List JobSummary) : List DirEntry → List JobSummary
  | [] => acc
  | e :: rest =>
    match entrySummary e with
    | none => recentLoop limit acc rest
    | some s =>
      if limit ≤ acc.length + 1 then acc ++ [s]
      else recentLoop limit (acc ++ [s]) rest

/-- `get_recent_jobs` from `src/main.py` (lines 138-167).  The output
root is `none` when `OUTPUT_ROOT.exists()` is false, otherwise the list
of entries found by `iterdir`. -/
def get_recent_jobs (root : Option (List DirEntry)) (limit : Nat) : List JobSummary :=
  match root with
  | none => []
  | some entries => recentLoop limit [] (sortDesc entries)

/-- The seniority-hint coercion in `submit` from `src/app/routers/ui.py`
(lines 38-43): an empty form value stays `None`; otherwise
`SeniorityHint(seniority_hint)` looks the string up by enum value and a
`ValueError` (no member with that value) is caught and turned into
`None`. -/
def submitHint (seniority_hint : Str) : Option SeniorityHint :=
  if seniority_hint.isEmpty then none
  else if seniority_hint = chars "junior" then some .junior
  else if seniority_hint = chars "intermediate" then some .intermediate
  else if seniority_hint = chars "senior" then some .senior
  else if seniority_hint = chars "lead" then some .lead
  else if seniority_hint = chars "director" then some .director
  else if seniority_hint = chars "executive" then some .executive
  else none

/-- The section tags of the tagged-output format. -/
def sectionTags : List Str :=
  [ chars "REASONING:", chars "COVER_LETTER:", chars "END_COVER_LETTER"
  , chars "RESUME:", chars "END_RESUME", chars "SHORT_ANSWERS:"
  , chars "END_SHORT_ANSWERS" ]

/-- A section body is tag-free when none of the seven section tags
occurs in it; this is the formal reading of a "properly delimited"
tagged blob. -/
def noTags (b : Str) : Bool :=
  sectionTags.all (fun tag => (firstOcc b tag).isNone)

/-- Template tail from the `SHORT_ANSWERS` terminator on. -/
def tmplTail3 (s : Str) : Str :=
  chars "END_RESUME\nSHORT_ANSWERS:\n" ++ (s ++ '\n' :: chars "END_SHORT_ANSWERS")

/-- Template tail from the `COVER_LETTER` terminator on. -/
def tmplTail2 (res s : Str) : Str :=
  chars "END_COVER_LETTER\nRESUME:\n" ++ (res ++ '\n' :: tmplTail3 s)

/-- Template tail from the `COVER_LETTER` section on. -/
def tmplTail1 (c res s : Str) : Str :=
  chars "COVER_LETTER:\n" ++ (c ++ '\n' :: tmplTail2 res s)

/-- A raw model output containing the literal line `FIT_SCORE: 73` and
properly delimited `REASONING:`/`COVER_LETTER:`/`RESUME:`/
`SHORT_ANSWERS:` blocks with bodies `r`, `c`, `res`, `s`:

`FIT_SCORE: 73 ⏎ REASONING: ⏎ r ⏎ COVER_LETTER: ⏎ c ⏎ END_COVER_LETTER ⏎
RESUME: ⏎ res ⏎ END_RESUME ⏎ SHORT_ANSWERS: ⏎ s ⏎ END_SHORT_ANSWERS`. -/
def wellFormed73 (r c res s : Str) : Str :=
  chars "FIT_SCORE: 73\nREASONING:\n" ++ (r ++ '\n' :: tmplTail1 c res s)

/-- Spec step 1: replace the literal two-character sequences `\n`, `\r`,
`\t` with real newline, carriage return and tab. -/
def normStep1 (s : Str) : Str :=
  replaceAll (replaceAll (replaceAll s (chars "\\n") (chars "\n"))
    (chars "\\r") (chars "\r")) (chars "\\t") (chars "\t")

/-- Spec step 2: replace the literal sequence `"` with `"`. -/
def normStep2 (s : Str) : Str := replaceAll s (chars "\\u0022") (chars "\"")

/-- Spec step 3: remove all triple-backtick fences. -/
def normStep3 (s : Str) : Str := replaceAll s (chars "```") []

/-- Spec step 4: rewrite markdown links `[label](url)` to `label`. -/
def normStep4 (s : Str) : Str := linkSub s

/-- Spec step 5: drop placeholder/continued lines. -/
def normStep5 (s : Str) : Str :=
  List.intercalate (chars "\n")
    ((splitlines s).filter (fun line => ! isPlaceholderLine line))

/-- Spec step 6: collapse runs of 3 or more newlines to exactly 2. -/
def normStep6 (s : Str) : Str := collapseNl s

/-- Spec step 7: trim the result. -/
def normStep7 (s : Str) : Str := pyStrip s

/-- The Text Normalizer as the spec words it: the seven steps applied in
order. -/
def normalize_spec (s : Str) : Str :=
  normStep7 (normStep6 (normStep5 (normStep4 (normStep3 (normStep2 (normStep1 s))))))

/-- The spec-side reading of "a `FIT_SCORE:` followed by a number occurs
somewhere in the text": after some prefix, the literal tag, then a
whitespace run, then at least one digit. -/
def HasFitPattern (raw : Str) : Prop :=
  ∃ pre ws d rest, raw = pre ++ chars "FIT_SCORE:" ++ ws ++ d :: rest
    ∧ (∀ ch ∈ ws, isPySpace ch = true) ∧ d.isDigit = true

/-- Characters matching `[A-Za-z0-9_]` (the character set the main
variant's sanitizer can output). -/
def isAlnumUnderscore (c : Char) : Bool := isAlnumAscii c || c == '_'

/-- Coarse ordering of the fit-label buckets, used to state that the
label is a monotonic function of the score ("Low fit" and "Weak fit"
are the two spellings of the lowest bucket). -/
def labelRank (l : Str) : Nat :=
  if l = chars "Strong fit" then 3
  else if l = chars "Good fit" then 2
  else if l = chars "Moderate fit" then 1
  else 0

/-- All members of the `SeniorityHint` enumeration. -/
def allHints : List SeniorityHint :=
  [.junior, .intermediate, .senior, .lead, .director, .executive]

/-! ### Lemmas about the string scanners -/

theorem startsWith_nil (t : Str) : startsWith t [] = true := rfl

theorem startsWith_nil_cons (d : Char) (p : Str) : startsWith [] (d :: p) = false := rfl

theorem startsWith_cons_cons (c d : Char) (t p : Str) :
    startsWith (c :: t) (d :: p) = (c == d && startsWith t p) := rfl

theorem startsWith_iff {t p : Str} : startsWith t p = true ↔ p <+: t := by
  induction p generalizing t with
  | nil => simp [startsWith_nil]
  | cons d p ih =>
    cases t with
    | nil => simp [startsWith_nil_cons]
    | cons c t =>
      rw [startsWith_cons_cons]
      simp only [Bool.and_eq_true, beq_iff_eq, List.cons_prefix_cons, ih]
      constructor
      · rintro ⟨h1, h2⟩
        exact ⟨h1.symm, h2⟩
      · rintro ⟨h1, h2⟩
        exact ⟨h1.symm, h2⟩

theorem firstOcc_cons (a : Char) (t p : Str) :
    firstOcc (a :: t) p =
      if startsWith (a :: t) p then some 0 else (firstOcc t p).map (· + 1) := by
  rw [firstOcc]

theorem firstOcc_nil (p : Str) :
    firstOcc [] p = if startsWith [] p then some 0 else none := by
  rw [firstOcc]

theorem firstOcc_of_startsWith {t p : Str} (h : startsWith t p = true) :
    firstOcc t p = some 0 := by
  cases t with
  | nil => rw [firstOcc_nil, if_pos h]
  | cons a t => rw [firstOcc_cons, if_pos h]

theorem firstOcc_eq_none_iff {t p : Str} : firstOcc t p = none ↔ ¬ p <:+: t := by
  induction t with
  | nil =>
    rw [firstOcc_nil]
    by_cases h : startsWith [] p
    · simp only [if_pos h]
      have hp : p = [] := by
        cases p with
        | nil => rfl
        | cons d q => rw [startsWith_nil_cons] at h; exact absurd h (by simp)
      subst hp
      simp
    · simp only [if_neg h]
      constructor
      · intro _ hc
        have hp0 : p = [] := List.eq_nil_of_infix_nil hc
        subst hp0
        exact h (startsWith_nil [])
      · intro _
        trivial
  | cons a t ih =>
    rw [firstOcc_cons]
    by_cases h : startsWith (a :: t) p
    · simp only [if_pos h]
      have : p <:+: a :: t := List.IsPrefix.isInfix (startsWith_iff.mp h)
      simp [this]
    · simp only [if_neg h]
      have hp : ¬ p <+: (a :: t) := fun hc => h (startsWith_iff.mpr hc)
      have hmap : (firstOcc t p).map (· + 1) = none ↔ firstOcc t p = none := by
        cases firstOcc t p <;> simp
      rw [hmap, ih, List.infix_cons_iff]
      tauto

/-- If `p` occurs nowhere in `t` then neither does any extension `q` of
`p`. -/
theorem firstOcc_ext_none {t p q : Str} (hpq : p <+: q)
    (h : firstOcc t p = none) : firstOcc t q = none := by
  rw [firstOcc_eq_none_iff] at h ⊢
  intro hc
  exact h (List.IsInfix.trans ( List.IsPrefix.isInfix hpq) hc)

/-- A prefix of `x ++ '\n' :: y` that is longer than `x` contains a
newline. -/
theorem mem_newline_of_long_start {p x y : Str}
    (hpre : p <+: x ++ '\n' :: y) (hlen : x.length < p.length) : '\n' ∈ p := by
  have hp := List.prefix_iff_eq_take.mp hpre
  rw [List.take_append_eq_append_take] at hp
  have hx : x.take p.length = x := List.take_of_length_le (le_of_lt hlen)
  rw [hx] at hp
  obtain ⟨k, hk⟩ : ∃ k, p.length - x.length = k + 1 := ⟨p.length - x.length - 1, by omega⟩
  rw [hk, List.take_succ_cons] at hp
  rw [hp]
  simp

/-- No occurrence of a newline-free `p` can cross a `'\n'` boundary:
if `p` occurs neither in `x` nor in `y` it does not occur in
`x ++ '\n' :: y`. -/
theorem not_infix_append_newline {p x y : Str}
    (hnl : '\n' ∉ p) (hx : ¬ p <:+: x) (hy : ¬ p <:+: y) :
    ¬ p <:+: (x ++ '\n' :: y) := by
  induction x with
  | nil =>
    intro hc
    rw [List.nil_append, List.infix_cons_iff] at hc
    rcases hc with hc | hc
    · cases p with
      | nil => exact hx (by simp)
      | cons d q =>
        have := List.cons_prefix_cons.mp hc
        exact hnl (this.1 ▸ List.mem_cons_self _ _)
    · exact hy hc
  | cons a x ih =>
    intro hc
    rw [List.cons_append, List.infix_cons_iff] at hc
    rcases hc with hc | hc
    · rw [← List.cons_append] at hc
      by_cases hl : p.length ≤ (a :: x).length
      · have hax : (a :: x) <+: (a :: x) ++ '\n' :: y := List.prefix_append _ _
        have : p <+: a :: x := List.prefix_of_prefix_length_le hc hax hl
        exact hx ( List.IsPrefix.isInfix this)
      · exact hnl (mem_newline_of_long_start hc (by omega))
    · have hx' : ¬ p <:+: x := fun hi => hx (List.infix_cons hi)
      exact ih hx' hc

/-- Scanning for `q` skips over a block `x` that is separated from the
rest by a newline, provided some newline-free non-empty leading part `p`
of `q` does not occur in `x`. -/
theorem firstOcc_append_newline {x y p q : Str}
    (hpq : p <+: q) (hp : p ≠ []) (hnl : '\n' ∉ p) (hx : ¬ p <:+: x) :
    firstOcc (x ++ '\n' :: y) q = (firstOcc ('\n' :: y) q).map (· + x.length) := by
  induction x with
  | nil =>
    simp only [List.nil_append, List.length_nil]
    cases h : firstOcc ('\n' :: y) q <;> simp
  | cons a x ih =>
    have hx' : ¬ p <:+: x := fun hi => hx (List.infix_cons hi)
    have hsw : startsWith (a :: (x ++ '\n' :: y)) q = false := by
      rw [Bool.eq_false_iff]
      intro hc
      have hq : q <+: a :: (x ++ '\n' :: y) := startsWith_iff.mp hc
      have hpc : p <+: (a :: x) ++ '\n' :: y := by
        rw [List.cons_append]
        exact List.IsPrefix.trans hpq hq
      by_cases hl : p.length ≤ (a :: x).length
      · have hax : (a :: x) <+: (a :: x) ++ '\n' :: y := List.prefix_append _ _
        have : p <+: a :: x := List.prefix_of_prefix_length_le hpc hax hl
        exact hx ( List.IsPrefix.isInfix this)
      · exact hnl (mem_newline_of_long_start hpc (by omega))
    rw [List.cons_append, firstOcc_cons, if_neg (by simp [hsw]), ih hx']
    cases h : firstOcc ('\n' :: y) q <;> simp <;> omega

/-! ### Lemmas about `pyStrip` -/

theorem pyStrip_append_newline (r : Str) : pyStrip (r ++ ['\n']) = pyStrip r := by
  unfold pyStrip
  rw [List.dropWhile_append]
  by_cases h : (r.dropWhile isPySpace).isEmpty
  · simp only [if_pos h]
    have hr : r.dropWhile isPySpace = [] := by
      simpa [List.isEmpty_iff] using h
    rw [hr]
    simp [List.dropWhile, isPySpace]
  · simp only [if_neg h]
    rw [List.reverse_append]
    simp only [List.reverse_cons, List.reverse_nil, List.nil_append, List.singleton_append]
    rw [List.dropWhile_cons_of_pos (by simp [isPySpace])]

theorem pyStrip_eq_nil_iff {r : Str} : pyStrip r = [] ↔ ∀ c ∈ r, isPySpace c = true := by
  unfold pyStrip
  rw [List.reverse_eq_nil_iff, List.dropWhile_eq_nil_iff]
  constructor
  · intro h c hc
    have hsplit := List.takeWhile_append_dropWhile isPySpace r
    rw [← hsplit] at hc
    rcases List.mem_append.mp hc with hm | hm
    · exact List.mem_takeWhile_imp hm
    · exact h c (by simpa using hm)
  · intro h c hc
    rw [List.mem_reverse] at hc
    have : c ∈ r := (List.dropWhile_sublist (l := r) (p := isPySpace)).mem hc
    exact h c this

theorem pyStrip_cons_newline_of_all_space {r : Str}
    (h : ∀ c ∈ r, isPySpace c = true) : pyStrip ('\n' :: (r ++ ['\n'])) = [] := by
  rw [pyStrip_eq_nil_iff]
  intro c hc
  rcases List.mem_cons.mp hc with rfl | hc
  · simp [isPySpace]
  · rcases List.mem_append.mp hc with hm | hm
    · exact h c hm
    · simp only [List.mem_singleton] at hm
      subst hm
      simp [isPySpace]

/-! ### Extraction of a template section -/

theorem not_infix_of_firstOcc_none {x p : Str} (h : firstOcc x p = none) :
    ¬ p <:+: x :=
  firstOcc_eq_none_iff.mp h

theorem noTags_spec {b tag : Str} (hb : noTags b = true) (htag : tag ∈ sectionTags) :
    ¬ tag <:+: b := by
  unfold noTags at hb
  rw [List.all_eq_true] at hb
  have := hb tag htag
  exact not_infix_of_firstOcc_none (Option.isNone_iff_eq_none.mp this)

/-- Generic extraction of one template section: the text is
`U ++ (st ++ (b ++ '\n' :: w))`, the start tag `st` first occurs at
index `U.length`, the end tag `en` does not occur in the body `b`
(witnessed through a newline-free non-empty leading part `p` of `en`)
and first occurs in `'\n' :: w` at index 1 (right after the body). -/
theorem extract_block_shape {U st b w en p : Str}
    (ht : firstOcc (U ++ (st ++ (b ++ '\n' :: w))) st = some U.length)
    (hpe : p <+: en) (hp : p ≠ []) (hnl : '\n' ∉ p) (hb : ¬ p <:+: b)
    (hw : firstOcc ('\n' :: w) en = some 1) :
    extract_block (U ++ (st ++ (b ++ '\n' :: w))) st en = pyStrip b := by
  have hdrop : (U ++ (st ++ (b ++ '\n' :: w))).drop (U.length + st.length)
      = b ++ '\n' :: w := by
    rw [← List.append_assoc]
    exact List.drop_left' (by simp)
  have hocc : firstOcc (b ++ '\n' :: w) en = some (1 + b.length) := by
    rw [firstOcc_append_newline hpe hp hnl hb, hw]
    rfl
  have htake : (b ++ '\n' :: w).take (1 + b.length) = b ++ ['\n'] := by
    rw [Nat.add_comm, List.take_append 1]
    simp
  simp only [extract_block, ht, hdrop, hocc, htake, pyStrip_append_newline]

theorem extract_reasoning (r c res s : Str) (hr : noTags r = true) :
    extract_block (wellFormed73 r c res s) (chars "REASONING:\n") (chars "COVER_LETTER:")
      = pyStrip r := by
  have hshape : wellFormed73 r c res s
      = chars "FIT_SCORE: 73\n"
        ++ (chars "REASONING:\n" ++ (r ++ '\n' :: tmplTail1 c res s)) := rfl
  rw [hshape]
  apply extract_block_shape (p := chars "COVER_LETTER:")
  · rfl
  · decide
  · decide
  · decide
  · exact noTags_spec hr (by decide)
  · rfl

theorem extract_cover (r c res s : Str) (hr : noTags r = true) (hc : noTags c = true) :
    extract_block (wellFormed73 r c res s) (chars "COVER_LETTER:\n") (chars "END_COVER_LETTER")
      = pyStrip c := by
  have hx : ¬ chars "COVER_LETTER:" <:+: (chars "FIT_SCORE: 73\nREASONING:\n" ++ r) := by
    have h1 : ¬ chars "COVER_LETTER:" <:+: r := noTags_spec hr (by decide)
    have h2 : ¬ chars "COVER_LETTER:" <:+: (chars "REASONING:" ++ '\n' :: r) :=
      not_infix_append_newline (by decide) (not_infix_of_firstOcc_none (by decide)) h1
    have h3 : ¬ chars "COVER_LETTER:"
        <:+: (chars "FIT_SCORE: 73" ++ '\n' :: (chars "REASONING:" ++ '\n' :: r)) :=
      not_infix_append_newline (by decide) (not_infix_of_firstOcc_none (by decide)) h2
    exact h3
  have hshape : wellFormed73 r c res s
      = (chars "FIT_SCORE: 73\nREASONING:\n" ++ (r ++ ['\n']))
        ++ (chars "COVER_LETTER:\n" ++ (c ++ '\n' :: tmplTail2 res s)) := by
    simp only [wellFormed73, tmplTail1, List.append_assoc, List.cons_append]
    rfl
  rw [hshape]
  apply extract_block_shape (p := chars "END_COVER_LETTER")
  · have hre : (chars "FIT_SCORE: 73\nREASONING:\n" ++ (r ++ ['\n']))
        ++ (chars "COVER_LETTER:\n" ++ (c ++ '\n' :: tmplTail2 res s))
        = (chars "FIT_SCORE: 73\nREASONING:\n" ++ r)
          ++ '\n' :: (chars "COVER_LETTER:\n" ++ (c ++ '\n' :: tmplTail2 res s)) := by
      simp only [List.append_assoc, List.cons_append]
      rfl
    rw [hre,
      firstOcc_append_newline (p := chars "COVER_LETTER:") (by decide) (by decide) (by decide) hx]
    have hin : firstOcc ('\n' :: (chars "COVER_LETTER:\n" ++ (c ++ '\n' :: tmplTail2 res s)))
        (chars "COVER_LETTER:\n") = some 1 := rfl
    rw [hin]
    have l1 : (chars "FIT_SCORE: 73\nREASONING:\n").length = 25 := rfl
    simp [List.length_append, l1]
    omega
  · decide
  · decide
  · decide
  · exact noTags_spec hc (by decide)
  · rfl

theorem extract_resume (r c res s : Str)
    (hr : noTags r = true) (hc : noTags c = true) (hres : noTags res = true) :
    extract_block (wellFormed73 r c res s) (chars "RESUME:\n") (chars "END_RESUME")
      = pyStrip res := by
  have hx : ¬ chars "RESUME:"
      <:+: (chars "FIT_SCORE: 73\nREASONING:\n"
        ++ (r ++ '\n' :: (chars "COVER_LETTER:\n" ++ (c ++ '\n' :: chars "END_COVER_LETTER")))) := by
    have h1 : ¬ chars "RESUME:" <:+: (c ++ '\n' :: chars "END_COVER_LETTER") :=
      not_infix_append_newline (by decide) (noTags_spec hc (by decide))
        (not_infix_of_firstOcc_none (by decide))
    have h2 : ¬ chars "RESUME:"
        <:+: (chars "COVER_LETTER:" ++ '\n' :: (c ++ '\n' :: chars "END_COVER_LETTER")) :=
      not_infix_append_newline (by decide) (not_infix_of_firstOcc_none (by decide)) h1
    have h3 : ¬ chars "RESUME:"
        <:+: (r ++ '\n' :: (chars "COVER_LETTER:" ++ '\n' :: (c ++ '\n' :: chars "END_COVER_LETTER"))) :=
      not_infix_append_newline (by decide) (noTags_spec hr (by decide)) h2
    have h4 : ¬ chars "RESUME:"
        <:+: (chars "REASONING:"
          ++ '\n' :: (r ++ '\n' :: (chars "COVER_LETTER:" ++ '\n' :: (c ++ '\n' :: chars "END_COVER_LETTER")))) :=
      not_infix_append_newline (by decide) (not_infix_of_firstOcc_none (by decide)) h3
    have h5 : ¬ chars "RESUME:"
        <:+: (chars "FIT_SCORE: 73"
          ++ '\n' :: (chars "REASONING:"
            ++ '\n' :: (r ++ '\n' :: (chars "COVER_LETTER:" ++ '\n' :: (c ++ '\n' :: chars "END_COVER_LETTER"))))) :=
      not_infix_append_newline (by decide) (not_infix_of_firstOcc_none (by decide)) h4
    exact h5
  have hshape : wellFormed73 r c res s
      = (chars "FIT_SCORE: 73\nREASONING:\n"
          ++ (r ++ '\n' :: (chars "COVER_LETTER:\n" ++ (c ++ '\n' :: chars "END_COVER_LETTER\n"))))
        ++ (chars "RESUME:\n" ++ (res ++ '\n' :: tmplTail3 s)) := by
    simp only [wellFormed73, tmplTail1, tmplTail2, List.append_assoc, List.cons_append]
    rfl
  rw [hshape]
  apply extract_block_shape (p := chars "END_RESUME")
  · have hre : (chars "FIT_SCORE: 73\nREASONING:\n"
          ++ (r ++ '\n' :: (chars "COVER_LETTER:\n" ++ (c ++ '\n' :: chars "END_COVER_LETTER\n"))))
        ++ (chars "RESUME:\n" ++ (res ++ '\n' :: tmplTail3 s))
        = (chars "FIT_SCORE: 73\nREASONING:\n"
            ++ (r ++ '\n' :: (chars "COVER_LETTER:\n" ++ (c ++ '\n' :: chars "END_COVER_LETTER"))))
          ++ '\n' :: (chars "RESUME:\n" ++ (res ++ '\n' :: tmplTail3 s)) := by
      simp only [List.append_assoc, List.cons_append]
      rfl
    rw [hre,
      firstOcc_append_newline (p := chars "RESUME:") (by decide) (by decide) (by decide) hx]
    have hin : firstOcc ('\n' :: (chars "RESUME:\n" ++ (res ++ '\n' :: tmplTail3 s)))
        (chars "RESUME:\n") = some 1 := rfl
    rw [hin]
    have l1 : (chars "FIT_SCORE: 73\nREASONING:\n").length = 25 := rfl
    have l2 : (chars "COVER_LETTER:\n").length = 14 := rfl
    have l3 : (chars "END_COVER_LETTER\n").length = 17 := rfl
    have l4 : (chars "END_COVER_LETTER").length = 16 := rfl
    simp [List.length_append, l1, l2, l3, l4]
    omega
  · decide
  · decide
  · decide
  · exact noTags_spec hres (by decide)
  · rfl

/-- The tag `SHORT_ANSWERS:` does not occur before its own section in a
well-formed template (everything up to and including `END_RESUME`). -/
theorem sa_not_before (r c res s : Str)
  (hr : noTags r = true) (hc : noTags c = true) (hres : noTags res = true) :
  ¬ chars "SHORT_ANSWERS:"
    <:+: (chars "FIT_SCORE: 73\nREASONING:\n"
      ++ (r ++ '\n' :: (chars "COVER_LETTER:\n"
        ++ (c ++ '\n' :: (chars "END_COVER_LETTER\nRESUME:\n"
          ++ (res ++ '\n' :: chars "END_RESUME")))))) := by
  have h1 : ¬ chars "SHORT_ANSWERS:" <:+: (res ++ '\n' :: chars "END_RESUME") :=
    not_infix_append_newline (by decide) (noTags_spec hres (by decide))
      (not_infix_of_firstOcc_none (by decide))
  have h2 : ¬ chars "SHORT_ANSWERS:"
      <:+: (chars "RESUME:" ++ '\n' :: (res ++ '\n' :: chars "END_RESUME")) :=
    not_infix_append_newline (by decide) (not_infix_of_firstOcc_none (by decide)) h1
  have h3 : ¬ chars "SHORT_ANSWERS:"
      <:+: (chars "END_COVER_LETTER"
        ++ '\n' :: (chars "RESUME:" ++ '\n' :: (res ++ '\n' :: chars "END_RESUME"))) :=
    not_infix_append_newline (by decide) (not_infix_of_firstOcc_none (by decide)) h2
  have h4 : ¬ chars "SHORT_ANSWERS:"
      <:+: (c ++ '\n' :: (chars "END_COVER_LETTER"
        ++ '\n' :: (chars "RESUME:" ++ '\n' :: (res ++ '\n' :: chars "END_RESUME")))) :=
    not_infix_append_newline (by decide) (noTags_spec hc (by decide)) h3
  have h5 : ¬ chars "SHORT_ANSWERS:"
      <:+: (chars "COVER_LETTER:"
        ++ '\n' :: (c ++ '\n' :: (chars "END_COVER_LETTER"
          ++ '\n' :: (chars "RESUME:" ++ '\n' :: (res ++ '\n' :: chars "END_RESUME"))))) :=
    not_infix_append_newline (by decide) (not_infix_of_firstOcc_none (by decide)) h4
  have h6 : ¬ chars "SHORT_ANSWERS:"
      <:+: (r ++ '\n' :: (chars "COVER_LETTER:"
        ++ '\n' :: (c ++ '\n' :: (chars "END_COVER_LETTER"
          ++ '\n' :: (chars "RESUME:" ++ '\n' :: (res ++ '\n' :: chars "END_RESUME")))))) :=
    not_infix_append_newline (by decide) (noTags_spec hr (by decide)) h5
  have h7 : ¬ chars "SHORT_ANSWERS:"
      <:+: (chars "REASONING:"
        ++ '\n' :: (r ++ '\n' :: (chars "COVER_LETTER:"
          ++ '\n' :: (c ++ '\n' :: (chars "END_COVER_LETTER"
            ++ '\n' :: (chars "RESUME:" ++ '\n' :: (res ++ '\n' :: chars "END_RESUME"))))))) :=
    not_infix_append_newline (by decide) (not_infix_of_firstOcc_none (by decide)) h6
  have h8 : ¬ chars "SHORT_ANSWERS:"
      <:+: (chars "FIT_SCORE: 73"
        ++ '\n' :: (chars "REASONING:"
          ++ '\n' :: (r ++ '\n' :: (chars "COVER_LETTER:"
            ++ '\n' :: (c ++ '\n' :: (chars "END_COVER_LETTER"
              ++ '\n' :: (chars "RESUME:" ++ '\n' :: (res ++ '\n' :: chars "END_RESUME")))))))) :=
    not_infix_append_newline (by decide) (not_infix_of_firstOcc_none (by decide)) h7
  exact h8

theorem extract_sa (r c res s : Str)
    (hr : noTags r = true) (hc : noTags c = true) (hres : noTags res = true)
    (hs : noTags s = true) :
    extract_block (wellFormed73 r c res s) (chars "SHORT_ANSWERS:\n") (chars "END_SHORT_ANSWERS")
      = pyStrip s := by
  have hx := sa_not_before r c res s hr hc hres
  have hshape : wellFormed73 r c res s
      = (chars "FIT_SCORE: 73\nREASONING:\n"
          ++ (r ++ '\n' :: (chars "COVER_LETTER:\n"
            ++ (c ++ '\n' :: (chars "END_COVER_LETTER\nRESUME:\n"
              ++ (res ++ '\n' :: chars "END_RESUME\n"))))))
        ++ (chars "SHORT_ANSWERS:\n" ++ (s ++ '\n' :: chars "END_SHORT_ANSWERS")) := by
    simp only [wellFormed73, tmplTail1, tmplTail2, tmplTail3, List.append_assoc,
      List.cons_append]
    rfl
  rw [hshape]
  apply extract_block_shape (p := chars "END_SHORT_ANSWERS")
  · have hre : (chars "FIT_SCORE: 73\nREASONING:\n"
          ++ (r ++ '\n' :: (chars "COVER_LETTER:\n"
            ++ (c ++ '\n' :: (chars "END_COVER_LETTER\nRESUME:\n"
              ++ (res ++ '\n' :: chars "END_RESUME\n"))))))
        ++ (chars "SHORT_ANSWERS:\n" ++ (s ++ '\n' :: chars "END_SHORT_ANSWERS"))
        = (chars "FIT_SCORE: 73\nREASONING:\n"
            ++ (r ++ '\n' :: (chars "COVER_LETTER:\n"
              ++ (c ++ '\n' :: (chars "END_COVER_LETTER\nRESUME:\n"
                ++ (res ++ '\n' :: chars "END_RESUME"))))))
          ++ '\n' :: (chars "SHORT_ANSWERS:\n" ++ (s ++ '\n' :: chars "END_SHORT_ANSWERS")) := by
      simp only [List.append_assoc, List.cons_append]
      rfl
    rw [hre,
      firstOcc_append_newline (p := chars "SHORT_ANSWERS:") (by decide) (by decide) (by decide) hx]
    have hin : firstOcc ('\n' :: (chars "SHORT_ANSWERS:\n" ++ (s ++ '\n' :: chars "END_SHORT_ANSWERS")))
        (chars "SHORT_ANSWERS:\n") = some 1 := rfl
    rw [hin]
    have l1 : (chars "FIT_SCORE: 73\nREASONING:\n").length = 25 := rfl
    have l2 : (chars "COVER_LETTER:\n").length = 14 := rfl
    have l3 : (chars "END_COVER_LETTER\nRESUME:\n").length = 25 := rfl
    have l4 : (chars "END_RESUME\n").length = 11 := rfl
    have l5 : (chars "END_RESUME").length = 10 := rfl
    simp [List.length_append, l1, l2, l3, l4, l5]
    omega
  · decide
  · decide
  · decide
  · exact noTags_spec hs (by decide)
  · rfl

/-- The bare-tag fallback extraction for the short-answers section:
when the body is pure whitespace the extracted slice (which starts at
the newline right after the bare `SHORT_ANSWERS:` tag) strips to the
empty string as well. -/
theorem extract_sa_bare (r c res s : Str)
    (hr : noTags r = true) (hc : noTags c = true) (hres : noTags res = true)
    (hs : noTags s = true) (hsp : ∀ ch ∈ s, isPySpace ch = true) :
    extract_block (wellFormed73 r c res s) (chars "SHORT_ANSWERS:") (chars "END_SHORT_ANSWERS")
      = [] := by
  have hx := sa_not_before r c res s hr hc hres
  have hshape : wellFormed73 r c res s
      = (chars "FIT_SCORE: 73\nREASONING:\n"
          ++ (r ++ '\n' :: (chars "COVER_LETTER:\n"
            ++ (c ++ '\n' :: (chars "END_COVER_LETTER\nRESUME:\n"
              ++ (res ++ '\n' :: chars "END_RESUME"))))))
        ++ '\n' :: (chars "SHORT_ANSWERS:\n" ++ (s ++ '\n' :: chars "END_SHORT_ANSWERS")) := by
    simp only [wellFormed73, tmplTail1, tmplTail2, tmplTail3, List.append_assoc,
      List.cons_append]
    rfl
  rw [hshape]
  have hstart : firstOcc
      ((chars "FIT_SCORE: 73\nREASONING:\n"
          ++ (r ++ '\n' :: (chars "COVER_LETTER:\n"
            ++ (c ++ '\n' :: (chars "END_COVER_LETTER\nRESUME:\n"
              ++ (res ++ '\n' :: chars "END_RESUME"))))))
        ++ '\n' :: (chars "SHORT_ANSWERS:\n" ++ (s ++ '\n' :: chars "END_SHORT_ANSWERS")))
      (chars "SHORT_ANSWERS:")
      = some (1 + (chars "FIT_SCORE: 73\nREASONING:\n"
          ++ (r ++ '\n' :: (chars "COVER_LETTER:\n"
            ++ (c ++ '\n' :: (chars "END_COVER_LETTER\nRESUME:\n"
              ++ (res ++ '\n' :: chars "END_RESUME")))))).length) := by
    rw [firstOcc_append_newline (p := chars "SHORT_ANSWERS:") (by decide) (by decide)
      (by decide) hx]
    have hin : firstOcc ('\n' :: (chars "SHORT_ANSWERS:\n" ++ (s ++ '\n' :: chars "END_SHORT_ANSWERS")))
        (chars "SHORT_ANSWERS:") = some 1 := rfl
    rw [hin]
    rfl
  have hdrop : ((chars "FIT_SCORE: 73\nREASONING:\n"
          ++ (r ++ '\n' :: (chars "COVER_LETTER:\n"
            ++ (c ++ '\n' :: (chars "END_COVER_LETTER\nRESUME:\n"
              ++ (res ++ '\n' :: chars "END_RESUME"))))))
        ++ '\n' :: (chars "SHORT_ANSWERS:\n" ++ (s ++ '\n' :: chars "END_SHORT_ANSWERS"))).drop
        (1 + (chars "FIT_SCORE: 73\nREASONING:\n"
          ++ (r ++ '\n' :: (chars "COVER_LETTER:\n"
            ++ (c ++ '\n' :: (chars "END_COVER_LETTER\nRESUME:\n"
              ++ (res ++ '\n' :: chars "END_RESUME")))))).length
          + (chars "SHORT_ANSWERS:").length)
      = '\n' :: (s ++ '\n' :: chars "END_SHORT_ANSWERS") := by
    have hre : (chars "FIT_SCORE: 73\nREASONING:\n"
          ++ (r ++ '\n' :: (chars "COVER_LETTER:\n"
            ++ (c ++ '\n' :: (chars "END_COVER_LETTER\nRESUME:\n"
              ++ (res ++ '\n' :: chars "END_RESUME"))))))
        ++ '\n' :: (chars "SHORT_ANSWERS:\n" ++ (s ++ '\n' :: chars "END_SHORT_ANSWERS"))
        = ((chars "FIT_SCORE: 73\nREASONING:\n"
            ++ (r ++ '\n' :: (chars "COVER_LETTER:\n"
              ++ (c ++ '\n' :: (chars "END_COVER_LETTER\nRESUME:\n"
                ++ (res ++ '\n' :: chars "END_RESUME"))))))
          ++ ('\n' :: chars "SHORT_ANSWERS:"))
          ++ '\n' :: (s ++ '\n' :: chars "END_SHORT_ANSWERS") := by
      simp only [List.append_assoc, List.cons_append]
      rfl
    rw [hre]
    apply List.drop_left'
    simp [List.length_append]
    omega
  have hocc : firstOcc ('\n' :: (s ++ '\n' :: chars "END_SHORT_ANSWERS"))
      (chars "END_SHORT_ANSWERS") = some (1 + (s.length + 1)) := by
    have hx2 : ¬ chars "END_SHORT_ANSWERS" <:+: ('\n' :: s) := by
      intro hcon
      rcases List.infix_cons_iff.mp hcon with hcon | hcon
      · cases List.cons_prefix_cons.mp hcon with
        | intro h1 h2 => exact absurd h1 (by decide)
      · exact noTags_spec hs (by decide) hcon
    have hre2 : ('\n' :: (s ++ '\n' :: chars "END_SHORT_ANSWERS"))
        = ('\n' :: s) ++ '\n' :: chars "END_SHORT_ANSWERS" := by
      simp
    rw [hre2, firstOcc_append_newline (p := chars "END_SHORT_ANSWERS") (by decide) (by decide)
      (by decide) hx2]
    rfl
  have htake : (('\n' :: (s ++ '\n' :: chars "END_SHORT_ANSWERS")).take (1 + (s.length + 1)))
      = '\n' :: (s ++ ['\n']) := by
    have : 1 + (s.length + 1) = (s.length + 1) + 1 := by omega
    rw [this, List.take_succ_cons]
    have h2 : s.length + 1 = s.length + 1 := rfl
    rw [show s ++ '\n' :: chars "END_SHORT_ANSWERS" = s ++ ['\n'] ++ chars "END_SHORT_ANSWERS" by simp]
    rw [List.take_left' (by simp)]
  simp only [extract_block, hstart, hdrop, hocc, htake]
  exact pyStrip_cons_newline_of_all_space hsp

theorem isEmpty_false_of_ne_nil {l : Str} (h : l ≠ []) : l.isEmpty = false := by
  cases l with
  | nil => exact absurd rfl h
  | cons a l => rfl

theorem clean_model_text_nil : clean_model_text [] = [] := rfl

/-- Full evaluation of `parse_model_output` on a well-formed template:
the fit score is exactly 73, and each field is the corresponding body,
trimmed and then normalized. -/
theorem parse_wellFormed73 (r c res s : Str)
    (hr : noTags r = true) (hc : noTags c = true) (hres : noTags res = true)
    (hs : noTags s = true)
    (hrne : clean_model_text (pyStrip r) ≠ [])
    (hcne : clean_model_text (pyStrip c) ≠ [])
    (hresne : clean_model_text (pyStrip res) ≠ []) :
    parse_model_output (wellFormed73 r c res s)
      = .ok ⟨73, clean_model_text (pyStrip r), clean_model_text (pyStrip c),
             clean_model_text (pyStrip res),
             shortAnswersFromBlock (clean_model_text (pyStrip s))⟩ := by
  have hfit : searchFitScore (wellFormed73 r c res s) = some (chars "73", []) := rfl
  have hnum : numeralToRat (chars "73") [] = 73 := by decide
  have hR := extract_reasoning r c res s hr
  have hCL := extract_cover r c res s hr hc
  have hRS := extract_resume r c res s hr hc hres
  have hSA := extract_sa r c res s hr hc hres hs
  have hrnil : pyStrip r ≠ [] := by
    intro h0
    exact hrne (by rw [h0]; rfl)
  have hcnil : pyStrip c ≠ [] := by
    intro h0
    exact hcne (by rw [h0]; rfl)
  have hresnil : pyStrip res ≠ [] := by
    intro h0
    exact hresne (by rw [h0]; rfl)
  by_cases hsE : pyStrip s = []
  · have hSA2 := extract_sa_bare r c res s hr hc hres hs (pyStrip_eq_nil_iff.mp hsE)
    simp only [parse_model_output, hfit, hnum, hR, hCL, hRS, hSA, hSA2, hsE,
      isEmpty_false_of_ne_nil hrnil, isEmpty_false_of_ne_nil hcnil,
      isEmpty_false_of_ne_nil hresnil, List.isEmpty_nil, if_true, if_false,
      Bool.false_eq_true, ite_false, ite_true]
  · simp only [parse_model_output, hfit, hnum, hR, hCL, hRS, hSA,
      isEmpty_false_of_ne_nil hrnil, isEmpty_false_of_ne_nil hcnil,
      isEmpty_false_of_ne_nil hresnil, isEmpty_false_of_ne_nil hsE,
      Bool.false_eq_true, ite_false]

/-! ### Correctness of the fit-score search -/

theorem isPySpace_eq_false_of_isDigit {ch : Char} (h : ch.isDigit = true) :
    isPySpace ch = false := by
  cases hx : isPySpace ch
  · rfl
  · exfalso
    unfold isPySpace at hx
    simp only [Bool.or_eq_true, beq_iff_eq] at hx
    rcases hx with ((((((((((((((h1|h1)|h1)|h1)|h1)|h1)|h1)|h1)|h1)|h1)|h1)|h1)|h1)|h1)|h1) <;>
      subst h1 <;> exact absurd h (by decide)

theorem fitNum_isSome_iff {r : Str} :
    (fitNum r).isSome = true ↔ ∃ d rest, r = d :: rest ∧ d.isDigit = true := by
  unfold fitNum
  by_cases h : (r.takeWhile Char.isDigit).isEmpty
  · rw [if_pos h]
    simp only [Option.isSome_none, Bool.false_eq_true, false_iff]
    rintro ⟨d, rest, rfl, hd⟩
    rw [List.takeWhile_cons_of_pos hd] at h
    simp at h
  · rw [if_neg h]
    constructor
    · intro _
      cases hr : r with
      | nil =>
        subst hr
        simp at h
      | cons d rest =>
        subst hr
        refine ⟨d, rest, rfl, ?_⟩
        by_contra hd
        have hd' : d.isDigit = false := by
          cases hx : d.isDigit
          · rfl
          · exact absurd hx hd
        rw [List.takeWhile_cons_of_neg (by simp [hd'])] at h
        simp at h
    · intro _
      split <;> [skip; simp] <;> split <;> simp

theorem fitMatchAt_isSome_iff {t : Str} :
    (fitMatchAt t).isSome = true
      ↔ ∃ ws d rest, t = chars "FIT_SCORE:" ++ (ws ++ d :: rest)
          ∧ (∀ ch ∈ ws, isPySpace ch = true) ∧ d.isDigit = true := by
  unfold fitMatchAt
  by_cases hsw : startsWith t (chars "FIT_SCORE:") = true
  · rw [if_pos hsw]
    obtain ⟨u, hu⟩ := startsWith_iff.mp hsw
    subst hu
    rw [List.drop_left' (by rfl), fitNum_isSome_iff]
    constructor
    · rintro ⟨d, rest, hdr, hd⟩
      refine ⟨u.takeWhile isPySpace, d, rest, ?_, ?_, hd⟩
      · rw [← hdr, List.takeWhile_append_dropWhile]
      · intro ch hch
        exact List.mem_takeWhile_imp hch
    · rintro ⟨ws, d, rest, heq, hws, hd⟩
      have hu : u = ws ++ d :: rest := by
        have := List.append_cancel_left heq
        exact this
      subst hu
      refine ⟨d, rest, ?_, hd⟩
      rw [List.dropWhile_append]
      rw [List.dropWhile_eq_nil_iff.mpr hws]
      simp only [List.isEmpty_nil, if_true]
      rw [List.dropWhile_cons_of_neg]
      rw [isPySpace_eq_false_of_isDigit hd]
      simp
  · rw [if_neg hsw]
    simp only [Option.isSome_none, Bool.false_eq_true, false_iff]
    rintro ⟨ws, d, rest, heq, -, -⟩
    apply hsw
    rw [heq]
    exact startsWith_iff.mpr (List.prefix_append _ _)

theorem searchFitScore_isSome_iff {t : Str} :
    (searchFitScore t).isSome = true ↔ ∃ u, u <:+ t ∧ (fitMatchAt u).isSome = true := by
  induction t with
  | nil =>
    constructor
    · intro h
      exact ⟨[], List.suffix_refl [], h⟩
    · rintro ⟨u, hu, hsome⟩
      have hu0 : u = [] := List.eq_nil_of_suffix_nil hu
      subst hu0
      exact hsome
  | cons c t ih =>
    unfold searchFitScore
    cases hm : fitMatchAt (c :: t) with
    | some g =>
      simp only [Option.isSome_some, true_iff]
      exact ⟨c :: t, List.suffix_refl _, by rw [hm]; rfl⟩
    | none =>
      rw [ih]
      constructor
      · rintro ⟨u, hu, hsome⟩
        exact ⟨u, List.suffix_cons_iff.mpr (Or.inr hu), hsome⟩
      · rintro ⟨u, hu, hsome⟩
        rcases List.suffix_cons_iff.mp hu with rfl | hu
        · rw [hm] at hsome
          simp at hsome
        · exact ⟨u, hu, hsome⟩

theorem searchFitScore_isSome_iff_hasFit {raw : Str} :
    (searchFitScore raw).isSome = true ↔ HasFitPattern raw := by
  rw [searchFitScore_isSome_iff]
  constructor
  · rintro ⟨u, ⟨pre, hpre⟩, hsome⟩
    obtain ⟨ws, d, rest, hu, hws, hd⟩ := fitMatchAt_isSome_iff.mp hsome
    refine ⟨pre, ws, d, rest, ?_, hws, hd⟩
    rw [← hpre, hu]
    simp [List.append_assoc]
  · rintro ⟨pre, ws, d, rest, heq, hws, hd⟩
    refine ⟨chars "FIT_SCORE:" ++ (ws ++ d :: rest), ⟨pre, ?_⟩, ?_⟩
    · rw [heq]
      simp [List.append_assoc]
    · exact fitMatchAt_isSome_iff.mpr ⟨ws, d, rest, rfl, hws, hd⟩

theorem extract_block_none {text st en : Str} (h : firstOcc text st = none) :
    extract_block text st en = [] := by
  simp [extract_block, h]

/-- When a section's tag does not occur in the text, the corresponding
parsed field degrades to the empty string. -/
theorem parse_missing_sections {raw : Str} {p : ParsedPackage}
    (hp : parse_model_output raw = .ok p) :
    (¬ chars "REASONING:" <:+: raw → p.reasoning = [])
    ∧ (¬ chars "COVER_LETTER:" <:+: raw → p.cover_letter = [])
    ∧ (¬ chars "RESUME:" <:+: raw → p.resume = [])
    ∧ (¬ chars "SHORT_ANSWERS:" <:+: raw → p.short_answers = [[], [], []]) := by
  unfold parse_model_output at hp
  cases h : searchFitScore raw with
  | none =>
    rw [h] at hp
    exact absurd hp (by simp)
  | some g =>
    obtain ⟨ds, fs⟩ := g
    rw [h] at hp
    simp only [Except.ok.injEq] at hp
    subst hp
    refine ⟨?_, ?_, ?_, ?_⟩
    · intro hn
      have e2 : firstOcc raw (chars "REASONING:") = none := firstOcc_eq_none_iff.mpr hn
      have e1 : firstOcc raw (chars "REASONING:\n") = none :=
        firstOcc_ext_none ⟨chars "\n", rfl⟩ e2
      simp [extract_block_none e1, extract_block_none e2]
      rfl
    · intro hn
      have e2 : firstOcc raw (chars "COVER_LETTER:") = none := firstOcc_eq_none_iff.mpr hn
      have e1 : firstOcc raw (chars "COVER_LETTER:\n") = none :=
        firstOcc_ext_none ⟨chars "\n", rfl⟩ e2
      simp [extract_block_none e1, extract_block_none e2]
      rfl
    · intro hn
      have e2 : firstOcc raw (chars "RESUME:") = none := firstOcc_eq_none_iff.mpr hn
      have e1 : firstOcc raw (chars "RESUME:\n") = none :=
        firstOcc_ext_none ⟨chars "\n", rfl⟩ e2
      simp [extract_block_none e1, extract_block_none e2]
      rfl
    · intro hn
      have e2 : firstOcc raw (chars "SHORT_ANSWERS:") = none := firstOcc_eq_none_iff.mpr hn
      have e1 : firstOcc raw (chars "SHORT_ANSWERS:\n") = none :=
        firstOcc_ext_none ⟨chars "\n", rfl⟩ e2
      simp [extract_block_none e1, extract_block_none e2]
      rfl

/-! ### Sanitizer support lemmas -/

theorem nonAlnumGo_mem {text : Str} {b : Bool} {ch : Char}
    (h : ch ∈ nonAlnumGo b text) : isAlnumUnderscore ch = true := by
  induction text generalizing b with
  | nil => simp [nonAlnumGo] at h
  | cons c rest ih =>
    unfold nonAlnumGo at h
    by_cases hc : isAlnumAscii c
    · rw [if_pos hc] at h
      rcases List.mem_cons.mp h with rfl | h
      · simp [isAlnumUnderscore, hc]
      · exact ih h
    · rw [if_neg hc] at h
      by_cases hb : b
      · rw [if_pos hb] at h
        exact ih h
      · rw [if_neg hb] at h
        rcases List.mem_cons.mp h with rfl | h
        · simp [isAlnumUnderscore]
        · exact ih h

theorem stripUnderscores_mem {l : Str} {ch : Char}
    (h : ch ∈ stripUnderscores l) : ch ∈ l := by
  unfold stripUnderscores at h
  rw [List.mem_reverse] at h
  have h2 := (List.dropWhile_sublist (l := (l.dropWhile (· == '_')).reverse)
    (p := (· == '_'))).mem h
  rw [List.mem_reverse] at h2
  exact (List.dropWhile_sublist (l := l) (p := (· == '_'))).mem h2

/-! ### Dashboard loop characterisation -/

theorem recentLoop_eq (limit : Nat) (es : List DirEntry) (acc : List JobSummary)
    (hacc : acc.length < limit) :
    recentLoop limit acc es = acc ++ (es.filterMap entrySummary).take (limit - acc.length) := by
  induction es generalizing acc with
  | nil => simp [recentLoop]
  | cons e rest ih =>
    cases hs : entrySummary e with
    | none =>
      rw [show recentLoop limit acc (e :: rest) = recentLoop limit acc rest by
        conv_lhs => unfold recentLoop
        rw [hs]]
      rw [ih acc hacc]
      simp [List.filterMap_cons, hs]
    | some s =>
      by_cases hl : limit ≤ acc.length + 1
      · rw [show recentLoop limit acc (e :: rest) = acc ++ [s] by
          conv_lhs => unfold recentLoop
          rw [hs]
          show (if limit ≤ acc.length + 1 then acc ++ [s]
            else recentLoop limit (acc ++ [s]) rest) = acc ++ [s]
          exact if_pos hl]
        have hlim : limit - acc.length = 1 := by omega
        simp [List.filterMap_cons, hs, hlim]
      · rw [show recentLoop limit acc (e :: rest) = recentLoop limit (acc ++ [s]) rest by
          conv_lhs => unfold recentLoop
          rw [hs]
          show (if limit ≤ acc.length + 1 then acc ++ [s]
            else recentLoop limit (acc ++ [s]) rest) = recentLoop limit (acc ++ [s]) rest
          exact if_neg hl]
        rw [ih (acc ++ [s]) (by simp; omega)]
        simp only [List.filterMap_cons, hs, List.append_assoc, List.singleton_append,
          List.length_append, List.length_singleton]
        have hstep : limit - acc.length = (limit - (acc.length + 1)) + 1 := by omega
        rw [hstep, List.take_succ_cons]

/-! ### Filesystem frame lemmas -/

theorem mkdir_mem {fs : FS} {p : FPath} (h : p ∈ fs.dirs) : fs.mkdir p = fs := by
  simp [FS.mkdir, h]

theorem mkdir_not_mem {fs : FS} {p : FPath} (h : p ∉ fs.dirs) :
    fs.mkdir p = ⟨p :: fs.dirs, fs.files⟩ := by
  simp [FS.mkdir, h]

theorem writeText_absent {fs : FS} {p : FPath} {content : Str}
    (h : ∀ f ∈ fs.files, f.1 ≠ p) :
    fs.writeText p content = ⟨fs.dirs, (p, content) :: fs.files⟩ := by
  unfold FS.writeText
  have hf : fs.files.filter (fun q => q.1 ≠ p) = fs.files := by
    apply List.filter_eq_self.mpr
    intro a ha
    simpa using h a ha
  rw [hf]

theorem path3_ne {root dir f1 f2 : Str} (h : f1 ≠ f2) :
    ([root, dir, f1] : FPath) ≠ [root, dir, f2] := by
  simp [h]

/-- Frame property of the app-variant assembler: given that the output
root exists, the target folder does not, and no file lies at any of the
four target paths, the new filesystem is exactly the old one plus the
one new directory and the four artifact files. -/
theorem generate_full_package_frame (fs : FS) (job : JobInput) (ts a b c : Str)
    (h1 : [outRootApp] ∈ fs.dirs)
    (h2 : [outRootApp, folder_name_app job ts] ∉ fs.dirs)
    (h3 : ∀ f ∈ fs.files,
      f.1 ∉ [[outRootApp, folder_name_app job ts, chars "resume_full.txt"],
             [outRootApp, folder_name_app job ts, chars "cover_letter.txt"],
             [outRootApp, folder_name_app job ts, chars "short_answers.txt"],
             [outRootApp, folder_name_app job ts, chars "meta.json"]]) :
    ∃ mc,
      (generate_full_package fs job ts a b c).1
        = ⟨[outRootApp, folder_name_app job ts] :: fs.dirs,
           ([outRootApp, folder_name_app job ts, chars "meta.json"], mc)
           :: ([outRootApp, folder_name_app job ts, chars "short_answers.txt"],
                build_short_answers_text (generate_short_answers_post c))
           :: ([outRootApp, folder_name_app job ts, chars "cover_letter.txt"], b)
           :: ([outRootApp, folder_name_app job ts, chars "resume_full.txt"], a)
           :: fs.files⟩ := by
  refine ⟨metaEncode
    [ (chars "company", job.company)
    , (chars "title", job.title)
    , (chars "location", job.location.getD [])
    , (chars "seniority_hint", (job.seniority_hint.map SeniorityHint.val).getD [])
    , (chars "fit_score", ratRepr (estimate_fit_score job))
    , (chars "fit_label", label_fit (estimate_fit_score job))
    , (chars "folder_name", folder_name_app job ts)
    , (chars "created_at", ts) ], ?_⟩
  simp only [generate_full_package]
  rw [mkdir_mem h1]
  rw [mkdir_not_mem h2]
  rw [writeText_absent (p := [outRootApp, folder_name_app job ts] ++ [chars "resume_full.txt"]) (fun f hf => by
    intro hc
    exact (h3 f hf) (by rw [hc]; simp [outRootMain]))]
  rw [writeText_absent (p := [outRootApp, folder_name_app job ts] ++ [chars "cover_letter.txt"]) (fun f hf => by
    rcases List.mem_cons.mp hf with rfl | hf
    · exact path3_ne (by decide)
    · intro hc
      exact (h3 f hf) (by rw [hc]; simp [outRootMain]))]
  rw [writeText_absent (p := [outRootApp, folder_name_app job ts] ++ [chars "short_answers.txt"]) (fun f hf => by
    rcases List.mem_cons.mp hf with rfl | hf
    · exact path3_ne (by decide)
    · rcases List.mem_cons.mp hf with rfl | hf
      · exact path3_ne (by decide)
      · intro hc
        exact (h3 f hf) (by rw [hc]; simp [outRootMain]))]
  rw [writeText_absent (p := [outRootApp, folder_name_app job ts] ++ [chars "meta.json"]) (fun f hf => by
    rcases List.mem_cons.mp hf with rfl | hf
    · exact path3_ne (by decide)
    · rcases List.mem_cons.mp hf with rfl | hf
      · exact path3_ne (by decide)
      · rcases List.mem_cons.mp hf with rfl | hf
        · exact path3_ne (by decide)
        · intro hc
          exact (h3 f hf) (by rw [hc]; simp [outRootMain]))]
  rfl

theorem path4_ne {a b d f1 f2 : Str} (h : f1 ≠ f2) :
    ([a, b, d, f1] : FPath) ≠ [a, b, d, f2] := by
  simp [h]

/-- Frame property of the `src/main.py` assembler: on a successful
parse, given that the output root exists, the target folder does not,
and no file lies at any of the four target paths, the new filesystem is
exactly the old one plus the one new directory and the four artifact
files (named with the timestamp first). -/
theorem process_job_frame (fs : FS) (job : MainJobInput) (stamp raw : Str)
    (p : ParsedPackage) (hok : parse_model_output raw = .ok p)
    (h1 : outRootMain ∈ fs.dirs)
    (h2 : outRootMain ++ [folder_name_main job.company job.title stamp] ∉ fs.dirs)
    (h3 : ∀ f ∈ fs.files,
      f.1 ∉ [[chars "app", chars "output", folder_name_main job.company job.title stamp,
                chars "cover_letter.txt"],
             [chars "app", chars "output", folder_name_main job.company job.title stamp,
                chars "resume_full.txt"],
             [chars "app", chars "output", folder_name_main job.company job.title stamp,
                chars "short_answers.txt"],
             [chars "app", chars "output", folder_name_main job.company job.title stamp,
                chars "meta.json"]]) :
    ∃ mc, process_job_fs fs job stamp raw
      = .ok (⟨(outRootMain ++ [folder_name_main job.company job.title stamp]) :: fs.dirs,
              ([chars "app", chars "output", folder_name_main job.company job.title stamp,
                  chars "meta.json"], mc)
              :: ([chars "app", chars "output", folder_name_main job.company job.title stamp,
                  chars "short_answers.txt"], build_short_answers_text p.short_answers)
              :: ([chars "app", chars "output", folder_name_main job.company job.title stamp,
                  chars "resume_full.txt"], p.resume)
              :: ([chars "app", chars "output", folder_name_main job.company job.title stamp,
                  chars "cover_letter.txt"], p.cover_letter)
              :: fs.files⟩,
             p, folder_name_main job.company job.title stamp,
             map_score_to_label p.fit_score) := by
  refine ⟨metaEncode
    [ (chars "company", job.company)
    , (chars "title", job.title)
    , (chars "location", job.location.getD [])
    , (chars "seniority_hint", job.seniority_hint.getD [])
    , (chars "fit_score", ratRepr p.fit_score)
    , (chars "fit_label", map_score_to_label p.fit_score)
    , (chars "container_folder", folder_name_main job.company job.title stamp) ], ?_⟩
  simp only [process_job_fs, hok]
  rw [mkdir_mem h1]
  rw [mkdir_not_mem h2]
  rw [writeText_absent
    (p := outRootMain ++ [folder_name_main job.company job.title stamp] ++ [chars "cover_letter.txt"])
    (fun f hf => by
      intro hc
      exact (h3 f hf) (by rw [hc]; simp [outRootMain]))]
  rw [writeText_absent
    (p := outRootMain ++ [folder_name_main job.company job.title stamp] ++ [chars "resume_full.txt"])
    (fun f hf => by
      rcases List.mem_cons.mp hf with rfl | hf
      · exact path4_ne (by decide)
      · intro hc
        exact (h3 f hf) (by rw [hc]; simp [outRootMain]))]
  rw [writeText_absent
    (p := outRootMain ++ [folder_name_main job.company job.title stamp] ++ [chars "short_answers.txt"])
    (fun f hf => by
      rcases List.mem_cons.mp hf with rfl | hf
      · exact path4_ne (by decide)
      · rcases List.mem_cons.mp hf with rfl | hf
        · exact path4_ne (by decide)
        · intro hc
          exact (h3 f hf) (by rw [hc]; simp [outRootMain]))]
  rw [writeText_absent
    (p := outRootMain ++ [folder_name_main job.company job.title stamp] ++ [chars "meta.json"])
    (fun f hf => by
      rcases List.mem_cons.mp hf with rfl | hf
      · exact path4_ne (by decide)
      · rcases List.mem_cons.mp hf with rfl | hf
        · exact path4_ne (by decide)
        · rcases List.mem_cons.mp hf with rfl | hf
          · exact path4_ne (by decide)
          · intro hc
            exact (h3 f hf) (by rw [hc]; simp [outRootMain]))]
  rfl

/-! ### Claim theorems -/

/-- C4: for every input string, `clean_model_text` equals the 7-step
reference pipeline applied in order (un-escape literal escape sequences,
un-escape the quote, strip fences, collapse markdown links, drop
placeholder/continued lines, collapse blank-line runs, trim); it is pure
and total, returning a (possibly empty) string for every input including
the empty one, and it behaves as the spec's examples require on escaped
newlines, markdown links and ellipsis lines. -/
theorem C4_clean_model_text_pipeline (s : Str) :
    clean_model_text s = normalize_spec s
    ∧ clean_model_text [] = []
    ∧ clean_model_text (chars "line1\\nline2") = chars "line1\nline2"
    ∧ clean_model_text (chars "see [GitHub](https://github.com/x) now") = chars "see GitHub now"
    ∧ clean_model_text (chars "keep\n...\n... (continued)\nalso") = chars "keep\nalso" :=
  ⟨rfl, rfl, by decide, by decide, by decide⟩

/-- C5: both fit-label functions are total over all (rational) scores
and monotonic under the bucket order, and they apply the fixed threshold
tables in descending order: `map_score_to_label` (model-derived path)
uses 85/70/55 with lowest bucket "Low fit"; `label_fit` (estimation
path) uses 85/65 with lowest bucket "Weak fit".  In particular
`label(90) = "Strong fit"`, `label(75) = "Good fit"`, `label(60)` is
"Moderate fit" on the model-derived path and "Weak fit" on the
estimation path, `label(0)` is the lowest bucket, and values outside
0-100 fall into the outermost buckets. -/
theorem C5_fit_label_monotone_thresholds (x y : ℚ) (hxy : x ≤ y) :
    labelRank (map_score_to_label x) ≤ labelRank (map_score_to_label y)
    ∧ labelRank (label_fit x) ≤ labelRank (label_fit y)
    ∧ (85 ≤ x → map_score_to_label x = chars "Strong fit" ∧ label_fit x = chars "Strong fit")
    ∧ (70 ≤ x → x < 85 → map_score_to_label x = chars "Good fit")
    ∧ (65 ≤ x → x < 85 → label_fit x = chars "Good fit")
    ∧ (55 ≤ x → x < 70 → map_score_to_label x = chars "Moderate fit")
    ∧ (x < 55 → map_score_to_label x = chars "Low fit")
    ∧ (x < 65 → label_fit x = chars "Weak fit")
    ∧ map_score_to_label 90 = chars "Strong fit"
    ∧ map_score_to_label 75 = chars "Good fit"
    ∧ label_fit 75 = chars "Good fit"
    ∧ map_score_to_label 60 = chars "Moderate fit"
    ∧ label_fit 60 = chars "Weak fit"
    ∧ map_score_to_label 0 = chars "Low fit"
    ∧ label_fit 0 = chars "Weak fit"
    ∧ map_score_to_label 150 = chars "Strong fit"
    ∧ map_score_to_label (-5) = chars "Low fit" := by
  have r3 : labelRank (chars "Strong fit") = 3 := by decide
  have r2 : labelRank (chars "Good fit") = 2 := by decide
  have r1 : labelRank (chars "Moderate fit") = 1 := by decide
  have r0l : labelRank (chars "Low fit") = 0 := by decide
  have r0w : labelRank (chars "Weak fit") = 0 := by decide
  refine ⟨?_, ?_, ?_, ?_, ?_, ?_, ?_, ?_, ?_, ?_, ?_, ?_, ?_, ?_, ?_, ?_, ?_⟩
  · unfold map_score_to_label
    split_ifs <;> simp only [r3, r2, r1, r0l] <;> first | omega | linarith
  · unfold label_fit
    split_ifs <;> simp only [r3, r2, r0w] <;> first | omega | linarith
  · intro h
    unfold map_score_to_label label_fit
    rw [if_pos h, if_pos h]
    exact ⟨rfl, rfl⟩
  · intro h1 h2
    unfold map_score_to_label
    rw [if_neg (by linarith), if_pos h1]
  · intro h1 h2
    unfold label_fit
    rw [if_neg (by linarith), if_pos h1]
  · intro h1 h2
    unfold map_score_to_label
    rw [if_neg (by linarith), if_neg (by linarith), if_pos h1]
  · intro h1
    unfold map_score_to_label
    rw [if_neg (by linarith), if_neg (by linarith), if_neg (by linarith)]
  · intro h1
    unfold label_fit
    rw [if_neg (by linarith), if_neg (by linarith)]
  all_goals decide

/-- C5 witness: the threshold table and monotonicity facts instantiated
at the concrete pair of scores 60 ≤ 75. -/
theorem C5_witness :
    labelRank (map_score_to_label 60) ≤ labelRank (map_score_to_label 75)
    ∧ labelRank (label_fit 60) ≤ labelRank (label_fit 75)
    ∧ map_score_to_label 90 = chars "Strong fit"
    ∧ label_fit 60 = chars "Weak fit" := by
  have h := C5_fit_label_monotone_thresholds 60 75 (by norm_num)
  exact ⟨h.1, h.2.1, h.2.2.2.2.2.2.2.2.1, h.2.2.2.2.2.2.2.2.2.2.2.2.1⟩

/-- C8: the locally estimated fit score is exactly 70, plus 5 when the
seniority hint is one of senior/lead/director/executive, plus 5 when
the job description is strictly longer than 1500 characters, clamped to
[0, 100]; the function is deterministic and total (it is a pure Lean
function of the `JobInput`). -/
theorem C8_estimate_fit_score_formula (job : JobInput) :
    estimate_fit_score job
      = max 0 (min 100
          ((70 : ℚ)
            + (if job.seniority_hint = some .senior ∨ job.seniority_hint = some .lead
                  ∨ job.seniority_hint = some .director ∨ job.seniority_hint = some .executive
               then 5 else 0)
            + (if 1500 < job.job_description.length then (5 : ℚ) else 0))) := by
  unfold estimate_fit_score
  cases hh : job.seniority_hint with
  | none =>
    simp only [hh]
    split_ifs with h1 h2 <;> simp_all
  | some h =>
    simp only [hh, Option.some.injEq]
    split_ifs <;> simp_all

/-- C10 (implicit): in the enum-typed variant, a non-empty
`seniority_hint` form value that is not one of the six enum values is
not rejected: the hint is coerced to `none` before assembly, so the
heuristic scorer's seniority bonus is not applied and processing is
identical to a submission with no hint. -/
theorem C10_invalid_hint_coerced (hint : Str)
    (hinv : hint ∉ allHints.map SeniorityHint.val) :
    submitHint hint = none
    ∧ ∀ rt co ti loc jd,
        estimate_fit_score ⟨rt, co, ti, loc, jd, submitHint hint⟩
          = estimate_fit_score ⟨rt, co, ti, loc, jd, none⟩ := by
  have hs : submitHint hint = none := by
    unfold submitHint
    simp only [allHints, List.map, List.mem_cons, List.not_mem_nil, or_false,
      SeniorityHint.val] at hinv
    push_neg at hinv
    obtain ⟨h1, h2, h3, h4, h5, h6⟩ := hinv
    split_ifs <;> simp_all
  refine ⟨hs, ?_⟩
  intro rt co ti loc jd
  rw [hs]

/-- C10 witness: the concrete invalid hint `"principal"` is coerced to
`none` and scores exactly like an absent hint. -/
theorem C10_witness :
    submitHint (chars "principal") = none
    ∧ estimate_fit_score ⟨[], [], [], none, [], submitHint (chars "principal")⟩
        = estimate_fit_score ⟨[], [], [], none, [], none⟩ := by
  have h := C10_invalid_hint_coerced (chars "principal") (by decide)
  exact ⟨h.1, h.2 [] [] [] none []⟩

/-- C2: `parse_model_output` fails (with the missing-required-field
error carrying a 300-character snippet of the raw text as a suffix of
the message) if and only if no `FIT_SCORE:` followed by a number occurs
anywhere in the input; whenever the fit-score pattern is present parsing
succeeds, and any absent `REASONING:`, `COVER_LETTER:`, `RESUME:` or
`SHORT_ANSWERS:` section yields the empty string (respectively three
empty answers) for its field rather than an error. -/
theorem C2_parse_failure_characterised (raw : Str) :
    ((∃ p, parse_model_output raw = .ok p) ↔ HasFitPattern raw)
    ∧ (¬ HasFitPattern raw →
        parse_model_output raw = .error (fitScoreErrMsg raw)
          ∧ raw.take 300 <:+ fitScoreErrMsg raw)
    ∧ ∀ p, parse_model_output raw = .ok p →
        (¬ chars "REASONING:" <:+: raw → p.reasoning = [])
        ∧ (¬ chars "COVER_LETTER:" <:+: raw → p.cover_letter = [])
        ∧ (¬ chars "RESUME:" <:+: raw → p.resume = [])
        ∧ (¬ chars "SHORT_ANSWERS:" <:+: raw → p.short_answers = [[], [], []]) := by
  refine ⟨?_, ?_, ?_⟩
  · rw [← searchFitScore_isSome_iff_hasFit]
    cases h : searchFitScore raw with
    | none => simp [parse_model_output, h]
    | some g =>
      obtain ⟨ds, fs⟩ := g
      simp [parse_model_output, h]
  · intro hn
    have hnone : searchFitScore raw = none := by
      cases h : searchFitScore raw with
      | none => rfl
      | some g =>
        exact absurd (searchFitScore_isSome_iff_hasFit.mp (by rw [h]; rfl)) hn
    refine ⟨by simp [parse_model_output, hnone], ?_⟩
    exact ⟨chars "Could not find FIT_SCORE in model output. Snippet: ", rfl⟩
  · intro p hp
    exact parse_missing_sections hp

/-- C2 witness: on the concrete input `"FIT_SCORE: 10"` the fit-score
pattern is present, parsing succeeds, and each absent section degrades
to the empty string. -/
theorem C2_witness :
    ∃ p, parse_model_output (chars "FIT_SCORE: 10") = .ok p
      ∧ p.reasoning = [] ∧ p.cover_letter = [] ∧ p.resume = []
      ∧ p.short_answers = [[], [], []] := by
  have h := C2_parse_failure_characterised (chars "FIT_SCORE: 10")
  obtain ⟨p, hp⟩ := h.1.mpr ⟨[], [' '], '1', ['0'], by decide, by decide, by decide⟩
  obtain ⟨h1, h2, h3, h4⟩ := h.2.2 p hp
  exact ⟨p, hp, h1 (not_infix_of_firstOcc_none (by decide)),
    h2 (not_infix_of_firstOcc_none (by decide)),
    h3 (not_infix_of_firstOcc_none (by decide)),
    h4 (not_infix_of_firstOcc_none (by decide))⟩

/-- C3 counterexample: in the simpler assembler variant
(`generate_short_answers`), a source block with a single answer is
padded by repeating that answer, not by appending empty strings as the
claim states. -/
theorem C3_counterexample :
    generate_short_answers_post (chars "only answer")
      = [chars "only answer", chars "only answer", chars "only answer"]
    ∧ generate_short_answers_post (chars "only answer")
      ≠ [chars "only answer", [], []] := by decide

/-- C3 (amended): both short-answer post-processors always return
exactly 3 strings for every source block.  In the parser variant each
non-empty stripped line has its leading enumerator removed, the list is
truncated to the first 3 entries and right-padded with empty strings;
in the simpler variant the text is split on blank lines and, when 1 or
2 answers are found, the list is padded by repeating the last answer
(empty strings appear only when no answer at all was found). -/
theorem C3_amended (block raw : Str) :
    (shortAnswersFromBlock block).length = 3
    ∧ (generate_short_answers_post raw).length = 3
    ∧ shortAnswersFromBlock block
        = ((splitlines block).filterMap (fun line =>
              let l := pyStrip line
              if l.isEmpty then none else some (stripEnum l))).take 3
          ++ List.replicate (3 - ((splitlines block).filterMap (fun line =>
              let l := pyStrip line
              if l.isEmpty then none else some (stripEnum l))).length) [] := by
  have key : ∀ a : List Str,
      ((if 3 < a.length then a.take 3 else a)
        ++ List.replicate (3 - (if 3 < a.length then a.take 3 else a).length) []).length = 3
      ∧ (if 3 < a.length then a.take 3 else a)
          ++ List.replicate (3 - (if 3 < a.length then a.take 3 else a).length) []
        = a.take 3 ++ List.replicate (3 - a.length) [] := by
    intro a
    by_cases h : 3 < a.length
    · rw [if_pos h]
      have h3 : (a.take 3).length = 3 := by
        simp [List.length_take]
        omega
      refine ⟨?_, ?_⟩
      · simp [h3]
      · rw [h3]
        have h0 : 3 - a.length = 0 := by omega
        rw [h0]
    · rw [if_neg h]
      refine ⟨?_, ?_⟩
      · simp only [List.length_append, List.length_replicate]
        omega
      · rw [List.take_of_length_le (by omega)]
  refine ⟨?_, ?_, ?_⟩
  · simp only [shortAnswersFromBlock]
    exact (key _).1
  · simp only [generate_short_answers_post]
    rcases hp : (splitOn (chars "\n\n") raw).filterMap (fun p =>
        let q := pyStrip p
        if q.isEmpty then none else some q) with _ | ⟨x, _ | ⟨y, _ | ⟨z, rest⟩⟩⟩
    · simp
    · simp
    · simp
    · rw [if_pos (by simp)]
      simp [List.length_take]
  · simp only [shortAnswersFromBlock]
    exact (key _).2

/-- `dropWhile` is the identity on a list none of whose elements
satisfies the predicate. -/
theorem dropWhile_eq_self_of_none {p : Char → Bool} {s : Str}
    (h : ∀ ch ∈ s, p ch = false) : s.dropWhile p = s := by
  cases s with
  | nil => rfl
  | cons c t =>
    rw [List.dropWhile_cons, h c (List.mem_cons_self c t)]
    simp

/-- `pyStrip` is the identity on a string containing no whitespace. -/
theorem pyStrip_of_no_ws {s : Str} (h : ∀ ch ∈ s, isPySpace ch = false) :
    pyStrip s = s := by
  unfold pyStrip
  rw [dropWhile_eq_self_of_none h,
    dropWhile_eq_self_of_none (fun ch hch => h ch (List.mem_reverse.mp hch)),
    List.reverse_reverse]

/-- `wsGo` is the identity on a string containing no whitespace,
whatever the run flag. -/
theorem wsGo_of_no_ws (s : Str) :
    (∀ ch ∈ s, isPySpace ch = false) → ∀ b : Bool, wsGo b s = s := by
  induction s with
  | nil => intro _ b; cases b <;> rfl
  | cons c t ih =>
    intro h b
    have hc := h c (List.mem_cons_self c t)
    have ht := ih (fun ch hch => h ch (List.mem_cons_of_mem c hch)) false
    cases b <;> simp [wsGo, hc, ht]

/-- `pyLower` is the identity on a string every character of which is
its own lower-case form. -/
theorem pyLower_of_fixed {s : Str} (h : ∀ ch ∈ s, Char.toLower ch = ch) :
    pyLower s = s := by
  induction s with
  | nil => rfl
  | cons c t ih =>
    simp only [pyLower, List.map_cons] at *
    rw [h c (List.mem_cons_self c t),
      ih (fun ch hch => h ch (List.mem_cons_of_mem c hch))]

/-- `filter` returns the empty list when no element satisfies the
predicate. -/
theorem filter_eq_nil_of_none {p : Char → Bool} {s : Str}
    (h : ∀ ch ∈ s, p ch = false) : s.filter p = [] := by
  induction s with
  | nil => rfl
  | cons c t ih =>
    rw [List.filter_cons, h c (List.mem_cons_self c t)]
    simp only [Bool.false_eq_true, if_false]
    exact ih (fun ch hch => h ch (List.mem_cons_of_mem c hch))

/-- Inside a non-alphanumeric run, `nonAlnumGo` emits nothing further
when every remaining character is non-alphanumeric. -/
theorem nonAlnumGo_true_of_none {s : Str}
    (h : ∀ ch ∈ s, isAlnumAscii ch = false) : nonAlnumGo true s = [] := by
  induction s with
  | nil => rfl
  | cons c t ih =>
    have hc := h c (List.mem_cons_self c t)
    have ht := ih (fun ch hch => h ch (List.mem_cons_of_mem c hch))
    simp [nonAlnumGo, hc, ht]

/-- C6 counterexample: the `src/main.py` sanitizer preserves upper-case
letters (and maps arbitrary punctuation runs, not just whitespace runs,
to underscores), so its output does not match `^[a-z0-9_]+$` as the
claim asserts for both variants. -/
theorem C6_counterexample :
    sanitize_part_main (chars "Acme, Inc.") = chars "Acme_Inc"
    ∧ ¬ (∀ ch ∈ sanitize_part_main (chars "Acme, Inc."), isLowerAlnumU ch = true) := by
  decide

/-- C6 (amended): the app-variant sanitizer lower-cases, turns
whitespace runs into single underscores, drops characters outside
`[a-z0-9_]` and falls back to the given token when the result would be
empty, so (for a fallback that is itself non-empty and in that class)
its result is always non-empty and matches `^[a-z0-9_]+$`.  The
`src/main.py` variant instead replaces each run of characters outside
`[A-Za-z0-9]` with one underscore, strips leading and trailing
underscores, preserves case and falls back to `"job"`, so its result is
always non-empty and matches `^[A-Za-z0-9_]+$`.  An all-punctuation
input (characters that are their own lower case, not whitespace and
outside `[a-z0-9_]`) yields the fallback token in the app variant, and
an input with no ASCII alphanumeric at all yields `"job"` in the
`src/main.py` variant. -/
theorem C6_amended (text fb : Str) (hfb1 : fb ≠ [])
    (hfb2 : ∀ ch ∈ fb, isLowerAlnumU ch = true) :
    (sanitize_part text fb ≠ [] ∧ ∀ ch ∈ sanitize_part text fb, isLowerAlnumU ch = true)
    ∧ (sanitize_part_main text ≠ []
        ∧ ∀ ch ∈ sanitize_part_main text, isAlnumUnderscore ch = true)
    ∧ ((∀ ch ∈ text, Char.toLower ch = ch ∧ isPySpace ch = false
          ∧ isLowerAlnumU ch = false) → sanitize_part text fb = fb)
    ∧ ((∀ ch ∈ text, isAlnumAscii ch = false) → sanitize_part_main text = chars "job") := by
  refine ⟨?_, ?_, ?_, ?_⟩
  · unfold sanitize_part
    by_cases h1 : (pyStrip text).isEmpty
    · rw [if_pos h1]
      exact ⟨hfb1, hfb2⟩
    · rw [if_neg h1]
      by_cases h2 : ((wsRunsToUnderscore (pyLower (pyStrip text))).filter isLowerAlnumU).isEmpty
      · rw [if_pos h2]
        exact ⟨hfb1, hfb2⟩
      · rw [if_neg h2]
        constructor
        · intro h0
          rw [h0] at h2
          exact h2 rfl
        · intro ch hch
          exact List.of_mem_filter hch
  · unfold sanitize_part_main
    by_cases h1 : text.isEmpty
    · rw [if_pos h1]
      exact ⟨by decide, by decide⟩
    · rw [if_neg h1]
      by_cases h2 : (stripUnderscores (nonAlnumRunsToUnderscore text)).isEmpty
      · rw [if_pos h2]
        exact ⟨by decide, by decide⟩
      · rw [if_neg h2]
        constructor
        · intro h0
          rw [h0] at h2
          exact h2 rfl
        · intro ch hch
          exact nonAlnumGo_mem (stripUnderscores_mem hch)
  · intro hall
    have hstrip : pyStrip text = text :=
      pyStrip_of_no_ws (fun ch hch => (hall ch hch).2.1)
    unfold sanitize_part
    rw [hstrip]
    cases text with
    | nil => rfl
    | cons c t =>
      rw [if_neg (by simp)]
      have hlow : pyLower (c :: t) = c :: t :=
        pyLower_of_fixed (fun ch hch => (hall ch hch).1)
      simp only [wsRunsToUnderscore]
      rw [hlow, wsGo_of_no_ws (c :: t) (fun ch hch => (hall ch hch).2.1) false,
        filter_eq_nil_of_none (fun ch hch => (hall ch hch).2.2)]
      simp
  · intro hall
    cases text with
    | nil => rfl
    | cons c t =>
      have hc := hall c (List.mem_cons_self c t)
      have ht := nonAlnumGo_true_of_none (fun ch hch => hall ch (List.mem_cons_of_mem c hch))
      unfold sanitize_part_main
      rw [if_neg (by simp)]
      simp only [nonAlnumRunsToUnderscore]
      have hgo : nonAlnumGo false (c :: t) = ['_'] := by
        simp [nonAlnumGo, hc, ht]
      rw [hgo]
      rfl

/-- C6 witness: the amended sanitizer facts at the concrete input
`"Acme, Inc."` with fallback token `"company"`, and both fallback
branches at the all-punctuation input `"!!!"`. -/
theorem C6_witness :
    sanitize_part (chars "Acme, Inc.") (chars "company") ≠ []
    ∧ (∀ ch ∈ sanitize_part (chars "Acme, Inc.") (chars "company"), isLowerAlnumU ch = true)
    ∧ sanitize_part_main (chars "Acme, Inc.") ≠ []
    ∧ (∀ ch ∈ sanitize_part_main (chars "Acme, Inc."), isAlnumUnderscore ch = true)
    ∧ sanitize_part (chars "!!!") (chars "company") = chars "company"
    ∧ sanitize_part_main (chars "!!!") = chars "job" := by
  have h := C6_amended (chars "Acme, Inc.") (chars "company") (by decide) (by decide)
  have h2 := C6_amended (chars "!!!") (chars "company") (by decide) (by decide)
  exact ⟨h.1.1, h.1.2, h.2.1.1, h.2.1.2, h2.2.2.1 (by decide), h2.2.2.2 (by decide)⟩

/-- C9 counterexample: the stop check `len(jobs) >= limit` runs only
after a summary has been appended, so with `limit = 0` the listing
still returns one summary — more than `limit` — refuting "it returns at
most `limit` summaries" as a statement about every limit. -/
theorem C9_counterexample :
    (get_recent_jobs
        (some [⟨chars "a", true, some (some ⟨none, none, none, none, none, none⟩)⟩]) 0).length
      = 1 := by decide

/-- C9 (amended): dashboard listing never fails: a missing output root
yields the empty list; otherwise the entries are iterated in reverse
name order, every entry that is not a directory or lacks a readable,
parseable metadata record is skipped, and collection stops once `limit`
summaries are gathered — so for every `limit ≥ 1` at most `limit`
summaries are returned (for `limit ≤ 0` the post-append stop check
still admits one summary).  On a root with one folder holding a valid
metadata record and one folder without a metadata record, exactly one
summary is returned. -/
theorem C9_amended (entries : List DirEntry) (limit : Nat) (hl : 1 ≤ limit) :
    get_recent_jobs none limit = []
    ∧ get_recent_jobs (some entries) limit
        = ((sortDesc entries).filterMap entrySummary).take limit
    ∧ (get_recent_jobs (some entries) limit).length ≤ limit
    ∧ (get_recent_jobs
        (some [⟨chars "aaa", true, some (some ⟨none, none, none, none, none, none⟩)⟩,
               ⟨chars "bbb", true, none⟩]) 20).length = 1 := by
  have hmain : get_recent_jobs (some entries) limit
      = ((sortDesc entries).filterMap entrySummary).take limit := by
    show recentLoop limit [] (sortDesc entries)
      = ((sortDesc entries).filterMap entrySummary).take limit
    rw [recentLoop_eq limit _ [] (by simpa using hl)]
    simp
  refine ⟨rfl, hmain, ?_, by decide⟩
  rw [hmain]
  simp [List.length_take]

/-- C9 witness: the amended dashboard facts at a concrete root with two
entries and limit 20. -/
theorem C9_witness :
    get_recent_jobs none 20 = []
    ∧ (get_recent_jobs
        (some [⟨chars "x", true, some (some ⟨none, none, none, none, none, none⟩)⟩,
               ⟨chars "y", false, none⟩]) 20).length ≤ 20 := by
  have h := C9_amended
    [⟨chars "x", true, some (some ⟨none, none, none, none, none, none⟩)⟩,
     ⟨chars "y", false, none⟩] 20 (by decide)
  exact ⟨h.1, h.2.2.1⟩

/-- C7 counterexample: the `src/main.py` assembler names the created
directory `<timestamp>_<sanitized company>_<sanitized title>` — the
timestamp comes first and the sanitizer preserves case — so the claimed
name `<sanitized_company>_<sanitized_title>_<timestamp>` is wrong for
that variant (under either variant's sanitizer). -/
theorem C7_counterexample :
    (process_job_fs ⟨[outRootMain], []⟩
        ⟨chars "r", chars "Acme Corp", chars "Staff Engineer", none, chars "jd", none⟩
        (chars "20250101_120000")
        (wellFormed73 (chars "R.") (chars "C.") (chars "V.") (chars "1) a"))).map
        (fun out => out.1.dirs)
      = .ok [[chars "app", chars "output",
              chars "20250101_120000_Acme_Corp_Staff_Engineer"], outRootMain]
    ∧ chars "20250101_120000_Acme_Corp_Staff_Engineer"
        ≠ chars "acme_corp" ++ chars "_" ++ chars "staff_engineer"
          ++ chars "_" ++ chars "20250101_120000"
    ∧ chars "20250101_120000_Acme_Corp_Staff_Engineer"
        ≠ chars "Acme_Corp" ++ chars "_" ++ chars "Staff_Engineer"
          ++ chars "_" ++ chars "20250101_120000" := by
  refine ⟨by decide, by decide, by decide⟩

/-- C7 (amended): for every `JobInput` processed with a model-call
interface returning a well-formed tagged blob, a successful assembly
creates exactly one new directory under the output root and that
directory contains exactly the 4 files `resume_full.txt`,
`cover_letter.txt`, `short_answers.txt` and `meta.json`; no other
directory or file is created or modified.  The directory is named
`<sanitized_company>_<sanitized_title>_<timestamp>` in the app variant
and `<timestamp>_<sanitized company>_<sanitized title>` in the
`src/main.py` variant. -/
theorem C7_amended (fsA fsM : FS) (job : JobInput) (mjob : MainJobInput)
    (ts stamp a b c raw : Str) (p : ParsedPackage)
    (hA1 : [outRootApp] ∈ fsA.dirs)
    (hA2 : [outRootApp, folder_name_app job ts] ∉ fsA.dirs)
    (hA3 : ∀ f ∈ fsA.files,
      f.1 ∉ [[outRootApp, folder_name_app job ts, chars "resume_full.txt"],
             [outRootApp, folder_name_app job ts, chars "cover_letter.txt"],
             [outRootApp, folder_name_app job ts, chars "short_answers.txt"],
             [outRootApp, folder_name_app job ts, chars "meta.json"]])
    (hok : parse_model_output raw = .ok p)
    (hM1 : outRootMain ∈ fsM.dirs)
    (hM2 : outRootMain ++ [folder_name_main mjob.company mjob.title stamp] ∉ fsM.dirs)
    (hM3 : ∀ f ∈ fsM.files,
      f.1 ∉ [[chars "app", chars "output", folder_name_main mjob.company mjob.title stamp,
                chars "cover_letter.txt"],
             [chars "app", chars "output", folder_name_main mjob.company mjob.title stamp,
                chars "resume_full.txt"],
             [chars "app", chars "output", folder_name_main mjob.company mjob.title stamp,
                chars "short_answers.txt"],
             [chars "app", chars "output", folder_name_main mjob.company mjob.title stamp,
                chars "meta.json"]]) :
    (∃ mc,
      (generate_full_package fsA job ts a b c).1
        = ⟨[outRootApp, folder_name_app job ts] :: fsA.dirs,
           ([outRootApp, folder_name_app job ts, chars "meta.json"], mc)
           :: ([outRootApp, folder_name_app job ts, chars "short_answers.txt"],
                build_short_answers_text (generate_short_answers_post c))
           :: ([outRootApp, folder_name_app job ts, chars "cover_letter.txt"], b)
           :: ([outRootApp, folder_name_app job ts, chars "resume_full.txt"], a)
           :: fsA.files⟩)
    ∧ (∃ mc, process_job_fs fsM mjob stamp raw
        = .ok (⟨(outRootMain ++ [folder_name_main mjob.company mjob.title stamp]) :: fsM.dirs,
                ([chars "app", chars "output", folder_name_main mjob.company mjob.title stamp,
                    chars "meta.json"], mc)
                :: ([chars "app", chars "output", folder_name_main mjob.company mjob.title stamp,
                    chars "short_answers.txt"], build_short_answers_text p.short_answers)
                :: ([chars "app", chars "output", folder_name_main mjob.company mjob.title stamp,
                    chars "resume_full.txt"], p.resume)
                :: ([chars "app", chars "output", folder_name_main mjob.company mjob.title stamp,
                    chars "cover_letter.txt"], p.cover_letter)
                :: fsM.files⟩,
               p, folder_name_main mjob.company mjob.title stamp,
               map_score_to_label p.fit_score)) :=
  ⟨generate_full_package_frame fsA job ts a b c hA1 hA2 hA3,
   process_job_frame fsM mjob stamp raw p hok hM1 hM2 hM3⟩

set_option maxRecDepth 8000 in
/-- C7 witness: the frame property instantiated on concrete filesystems
holding only the output roots, a concrete job and a concrete well-formed
tagged blob. -/
theorem C7_witness :
    (∃ mc,
      (generate_full_package ⟨[[outRootApp]], []⟩
          ⟨chars "r", chars "Acme Corp", chars "Staff Engineer", none, chars "jd", none⟩
          (chars "20250101_120000") (chars "res") (chars "cov") (chars "ans")).1
        = ⟨[[outRootApp, folder_name_app
                ⟨chars "r", chars "Acme Corp", chars "Staff Engineer", none, chars "jd", none⟩
                (chars "20250101_120000")], [outRootApp]],
           [([outRootApp, folder_name_app
                ⟨chars "r", chars "Acme Corp", chars "Staff Engineer", none, chars "jd", none⟩
                (chars "20250101_120000"), chars "meta.json"], mc),
            ([outRootApp, folder_name_app
                ⟨chars "r", chars "Acme Corp", chars "Staff Engineer", none, chars "jd", none⟩
                (chars "20250101_120000"), chars "short_answers.txt"],
              build_short_answers_text (generate_short_answers_post (chars "ans"))),
            ([outRootApp, folder_name_app
                ⟨chars "r", chars "Acme Corp", chars "Staff Engineer", none, chars "jd", none⟩
                (chars "20250101_120000"), chars "cover_letter.txt"], chars "cov"),
            ([outRootApp, folder_name_app
                ⟨chars "r", chars "Acme Corp", chars "Staff Engineer", none, chars "jd", none⟩
                (chars "20250101_120000"), chars "resume_full.txt"], chars "res")]⟩)
    ∧ (∃ mc, process_job_fs ⟨[outRootMain], []⟩
          ⟨chars "r", chars "Acme Corp", chars "Staff Engineer", none, chars "jd", none⟩
          (chars "20250101_120000")
          (wellFormed73 (chars "R.") (chars "C.") (chars "V.") (chars "1) a"))
        = .ok (⟨[(outRootMain ++ [folder_name_main (chars "Acme Corp") (chars "Staff Engineer")
                    (chars "20250101_120000")]), outRootMain],
                [([chars "app", chars "output", folder_name_main (chars "Acme Corp")
                    (chars "Staff Engineer") (chars "20250101_120000"), chars "meta.json"], mc),
                 ([chars "app", chars "output", folder_name_main (chars "Acme Corp")
                    (chars "Staff Engineer") (chars "20250101_120000"), chars "short_answers.txt"],
                   build_short_answers_text [chars "a", [], []]),
                 ([chars "app", chars "output", folder_name_main (chars "Acme Corp")
                    (chars "Staff Engineer") (chars "20250101_120000"), chars "resume_full.txt"],
                   chars "V."),
                 ([chars "app", chars "output", folder_name_main (chars "Acme Corp")
                    (chars "Staff Engineer") (chars "20250101_120000"), chars "cover_letter.txt"],
                   chars "C.")]⟩,
               ⟨73, chars "R.", chars "C.", chars "V.", [chars "a", [], []]⟩,
               folder_name_main (chars "Acme Corp") (chars "Staff Engineer")
                 (chars "20250101_120000"),
               map_score_to_label 73)) := by
  have h := C7_amended ⟨[[outRootApp]], []⟩ ⟨[outRootMain], []⟩
    ⟨chars "r", chars "Acme Corp", chars "Staff Engineer", none, chars "jd", none⟩
    ⟨chars "r", chars "Acme Corp", chars "Staff Engineer", none, chars "jd", none⟩
    (chars "20250101_120000") (chars "20250101_120000")
    (chars "res") (chars "cov") (chars "ans")
    (wellFormed73 (chars "R.") (chars "C.") (chars "V.") (chars "1) a"))
    ⟨73, chars "R.", chars "C.", chars "V.", [chars "a", [], []]⟩
    (by decide) (by decide) (by decide) (by decide) (by decide) (by decide) (by decide)
  exact h

set_option maxRecDepth 8000 in
/-- C1 counterexample: the template with reasoning body `"..."` contains
the literal line `FIT_SCORE: 73` and properly delimited blocks with
non-empty bodies, yet parsing returns an empty reasoning field — the
normalizer drops the `"..."` line — refuting the claim's "non-empty
reasoning" conclusion for merely non-empty bodies. -/
theorem C1_counterexample :
    parse_model_output (wellFormed73 (chars "...") (chars "Hello") (chars "World") (chars "1) a"))
      = .ok ⟨73, [], chars "Hello", chars "World", [chars "a", [], []]⟩
    ∧ chars "..." ≠ [] := by
  exact ⟨by decide, by decide⟩

/-- C1 (amended): for every raw text of the well-formed template shape
(the literal line `FIT_SCORE: 73` followed by properly delimited
`REASONING:`/`COVER_LETTER:`/`RESUME:`/`SHORT_ANSWERS:` blocks whose
bodies contain no section tag) whose reasoning, cover-letter and resume
bodies remain non-empty after trimming and normalization,
`parse_model_output` returns fit score exactly 73 and each field equals
the text between the end of its start tag and the start of its end tag,
trimmed and then normalized — so the reasoning, cover-letter and resume
fields are non-empty.  (The original claim required only non-empty
bodies; the counterexample forces "bodies that normalize to non-empty
text".) -/
theorem C1_amended (r c res s : Str)
    (hr : noTags r = true) (hc : noTags c = true) (hres : noTags res = true)
    (hs : noTags s = true)
    (hrne : clean_model_text (pyStrip r) ≠ [])
    (hcne : clean_model_text (pyStrip c) ≠ [])
    (hresne : clean_model_text (pyStrip res) ≠ []) :
    parse_model_output (wellFormed73 r c res s)
      = .ok ⟨73, clean_model_text (pyStrip r), clean_model_text (pyStrip c),
             clean_model_text (pyStrip res),
             shortAnswersFromBlock (clean_model_text (pyStrip s))⟩
    ∧ clean_model_text (pyStrip r) ≠ []
    ∧ clean_model_text (pyStrip c) ≠ []
    ∧ clean_model_text (pyStrip res) ≠ [] :=
  ⟨parse_wellFormed73 r c res s hr hc hres hs hrne hcne hresne, hrne, hcne, hresne⟩

set_option maxRecDepth 8000 in
/-- C1 witness: the amended parsing facts at a concrete well-formed
template. -/
theorem C1_witness :
    parse_model_output (wellFormed73 (chars "Good match.") (chars "Dear team.")
        (chars "Jane Doe") (chars "1) a\n2) b\n3) c"))
      = .ok ⟨73, clean_model_text (pyStrip (chars "Good match.")),
             clean_model_text (pyStrip (chars "Dear team.")),
             clean_model_text (pyStrip (chars "Jane Doe")),
             shortAnswersFromBlock (clean_model_text (pyStrip (chars "1) a\n2) b\n3) c")))⟩
    ∧ clean_model_text (pyStrip (chars "Good match.")) ≠ []
    ∧ clean_model_text (pyStrip (chars "Dear team.")) ≠ []
    ∧ clean_model_text (pyStrip (chars "Jane Doe")) ≠ [] :=
  C1_amended (chars "Good match.") (chars "Dear team.") (chars "Jane Doe")
    (chars "1) a\n2) b\n3) c")
    (by decide) (by decide) (by decide) (by decide) (by decide) (by decide) (by decide)

end SimpleJobBot
